import Mathlib

/-!
# Verification of SOILIE-3D triplet extraction, aggregation and reconstruction

Shallow embedding of the geometry and aggregation pipeline of the SOILIE-3D
repository (`collect_data.py`, `modules/prepare_data.py`).

Conventions of the embedding:
* Python floats are modelled as real numbers (`ℝ`) where the source computes
  with transcendental functions (norms, `arccos`, `cos`, `sin`, `sqrt`), and as
  rationals (`ℚ`) in the purely field-arithmetic aggregation code, where the
  claims are stated over exact arithmetic.
* A float `nan` produced by `0/0` followed by `arccos` is modelled as `none`
  in an `Option ℝ` field.
* Python exceptions (`sys.exit(1)`, `ZeroDivisionError`, `ValueError` from
  `math.sqrt` of a negative number or `max([])`, `IndexError`, `TypeError`)
  are modelled with `Except` / `Option` results.
* Python dictionaries are modelled as association lists with
  replace-or-append insertion, preserving Python's key-update semantics.
-/

namespace Soilie3D

/-! ## Basic 3D geometry (collect_data.py uses numpy vectors of length 3) -/

/-- A 3D point/vector (numpy array of length 3). -/
abbrev Pt : Type := ℝ × ℝ × ℝ

/-- Componentwise subtraction `u - v` of 3-vectors (numpy `A - B`). -/
def vsub (u v : Pt) : Pt := (u.1 - v.1, u.2.1 - v.2.1, u.2.2 - v.2.2)

/-- Dot product of two 3-vectors (`np.dot`). -/
def dot3 (u v : Pt) : ℝ := u.1 * v.1 + u.2.1 * v.2.1 + u.2.2 * v.2.2

/-- Euclidean norm of a 3-vector (`np.linalg.norm`). -/
noncomputable def norm3 (u : Pt) : ℝ := Real.sqrt (u.1 ^ 2 + u.2.1 ^ 2 + u.2.2 ^ 2)

/-- Euclidean distance between two 3D points. -/
noncomputable def dist3 (u v : Pt) : ℝ := norm3 (vsub u v)

/-- Radians-to-degrees conversion (`np.degrees`). -/
noncomputable def degrees (x : ℝ) : ℝ := x * (180 / Real.pi)

/-- Degrees-to-radians conversion (`math.radians`). -/
noncomputable def radians (x : ℝ) : ℝ := x * (Real.pi / 180)

open Classical in
/-- The angle, in degrees, between the vectors `u` and `v`:
`np.degrees(np.arccos(np.dot(u,v) / (np.linalg.norm(u) * np.linalg.norm(v))))`.
When either vector has zero length numpy produces `0/0 = nan` and
`arccos(nan) = nan`; the `nan` outcome is modelled as `none`. -/
noncomputable def angleDeg (u v : Pt) : Option ℝ :=
  if norm3 u * norm3 v = 0 then none
  else some (degrees (Real.arccos (dot3 u v / (norm3 u * norm3 v))))

/-! ## Name formatting (collect_data.py, `getAngleDistCombos` lines 165-170)

The centroid dictionary keys are Python `str` renderings of two-element lists
such as `[chair, 1]`; the source reformats them with
`lstrip("[").rstrip("]").replace(APO,"").split(",")` followed by
`"_".join of [first.replace(" ","_"), second.replace(" ","")]`, where APO is the
apostrophe character.  The string operations are modelled at character level. -/

/-- The apostrophe character (ASCII 39), built by code so the embedding works on
keys that contain it (the source strips it with `str.replace`). -/
def apoChar : Char := Char.ofNat 39

/-- Replace every occurrence of character `a` by `b` (`str.replace(a, b)` for
single characters). -/
def replAll (a b : Char) (s : String) : String :=
  String.mk (s.data.map (fun c => if c = a then b else c))

/-- Remove every occurrence of character `a` (`str.replace(a, "")`). -/
def dropAll (a : Char) (s : String) : String :=
  String.mk (s.data.filter (fun c => c ≠ a))

/-- Strip all leading occurrences of `c` (`str.lstrip(c)`). -/
def lstripChar (c : Char) (s : String) : String :=
  String.mk (s.data.dropWhile (fun d => d = c))

/-- Strip all trailing occurrences of `c` (`str.rstrip(c)`). -/
def rstripChar (c : Char) (s : String) : String :=
  String.mk ((s.data.reverse.dropWhile (fun d => d = c)).reverse)

/-- `str.split(c)` at character level; Python returns `[""]` on the empty
string and keeps empty segments. -/
def splitChar (c : Char) : List Char → List (List Char)
  | [] => [[]]
  | ch :: rest =>
    let r := splitChar c rest
    if ch = c then [] :: r
    else
      match r with
      | [] => [[ch]]
      | g :: gs => (ch :: g) :: gs

/-- `collect_data.py` lines 165-170: reformat one centroid-dictionary key into
the object label written to the per-scene csv file.  Python indexes the split
result at `[0]` and `[1]`; a key without a comma would raise `IndexError`,
modelled as `none`. -/
def formatName (s : String) : Option String :=
  let t := dropAll apoChar (rstripChar ']' (lstripChar '[' s))
  match splitChar ',' t.data with
  | p0 :: p1 :: _ =>
    some (replAll ' ' '_' (String.mk p0) ++ "_" ++ dropAll ' ' (String.mk p1))
  | _ => none

/-! ## Ordered triplets (`itertools.permutations(names, 3)`) -/

/-- All ordered triplets of elements of `l` drawn at pairwise-distinct
positions, in the index-lexicographic order `itertools.permutations(names,3)`
produces. -/
def perms3 {α : Type} (l : List α) : List (List α) :=
  l.enum.flatMap fun p =>
    l.enum.flatMap fun q =>
      l.enum.flatMap fun r =>
        if p.1 ≠ q.1 ∧ q.1 ≠ r.1 ∧ p.1 ≠ r.1 then [[p.2, q.2, r.2]] else []

/-! ## `Frame.getAngleDistCombos` (collect_data.py lines 133-174) -/

/-- One row of `self.combos`: the three formatted labels followed by the six
numeric values **in the order the source appends them**
(line 171-172: `[nameA,nameB,nameC,distAB,distAC,distAO,angleBAC,angleOAB,angleOAC]`).
Angles are `Option ℝ` (`none` models the float `nan` of a degenerate angle). -/
structure ComboRow where
  nameA : String
  nameB : String
  nameC : String
  distAB : ℝ
  distAC : ℝ
  distAO : ℝ
  angleBAC : Option ℝ
  angleOAB : Option ℝ
  angleOAC : Option ℝ

/-- Centroid-dictionary access `self.centroids[key]`.  In the source the keys
come from the dictionary itself so the access always succeeds; the default
value is never reached for the triplets actually enumerated. -/
def cLookup (cs : List (String × Pt)) (k : String) : Pt :=
  ((cs.find? (fun p => p.1 = k)).map Prod.snd).getD (0, 0, 0)

/-- The body of the `for combo in combos` loop of `getAngleDistCombos` for one
ordered triplet `combo = [keyA, keyB, keyC]`.  The sensor origin is the
hard-coded `O = np.array([0,0,0])` of line 147.  `none` models the
`IndexError` raised by the name formatting on a key without a comma. -/
noncomputable def mkRow (cs : List (String × Pt)) (combo : List String) :
    Option ComboRow := do
  let A := cLookup cs (combo.getD 0 "")
  let B := cLookup cs (combo.getD 1 "")
  let C := cLookup cs (combo.getD 2 "")
  let O : Pt := (0, 0, 0)
  let BA := vsub B A
  let CA := vsub C A
  let OA := vsub O A
  let nameA ← formatName (combo.getD 0 "")
  let nameB ← formatName (combo.getD 1 "")
  let nameC ← formatName (combo.getD 2 "")
  pure { nameA := nameA, nameB := nameB, nameC := nameC
         distAB := dist3 A B, distAC := dist3 A C, distAO := dist3 A O
         angleBAC := angleDeg BA CA
         angleOAB := angleDeg OA BA
         angleOAC := angleDeg OA CA }

/-- `Frame.getAngleDistCombos`: enumerate every ordered triplet of distinct
objects of the centroid dictionary and compute its distance/angle record.
The `'---'.join(combo).split('---')` round-trip of line 142 is the identity
for keys that do not contain `---` and is omitted.  A `none` result models the
uncaught `IndexError` of the name formatting aborting the frame. -/
noncomputable def getAngleDistCombos (cs : List (String × Pt)) :
    Option (List ComboRow) :=
  (perms3 (cs.map Prod.fst)).mapM (mkRow cs)

/-! ## `Frame.export` (collect_data.py lines 282-288)

The csv header written on line 284 is
`objectA, objectB, objectC, distanceAB, distanceAC,distanceAO, angleOAB, angleOAC, angleBAC`
while each data line (line 286-287) joins a combo row in the order of line
171-172.  The pairing of header names with stored cells is modelled below. -/

/-- One cell of an exported csv line: a label or a numeric value
(`none` = the string `nan`). -/
inductive Cell where
  | label (s : String)
  | num (x : Option ℝ)

/-- The column titles of the per-scene triplet file, whitespace-stripped as
`prepare_data.py` line 90 does before use. -/
def csvHeader : List String :=
  ["objectA", "objectB", "objectC", "distanceAB", "distanceAC",
   "distanceAO", "angleOAB", "angleOAC", "angleBAC"]

/-- The cells of one exported csv line, in the order `','.flatten(combo)` writes
them (collect_data.py line 171-172 fixes that order). -/
def exportCells (r : ComboRow) : List Cell :=
  [.label r.nameA, .label r.nameB, .label r.nameC,
   .num (some r.distAB), .num (some r.distAC), .num (some r.distAO),
   .num r.angleBAC, .num r.angleOAB, .num r.angleOAC]

/-- The value the persisted per-scene triplet file stores under a given header
column: the header row and the data row are zipped positionally. -/
def storedUnder (h : String) (r : ComboRow) : Option Cell :=
  (csvHeader.zip (exportCells r)).lookup h

/-! ## Generic helper lemmas -/

theorem mapM_eq_some_char {α β : Type} (f : α → Option β) :
    ∀ (l : List α) (ys : List β), l.mapM f = some ys →
      ys.length = l.length ∧ ∀ x ∈ l, ∃ y ∈ ys, f x = some y := by
  intro l
  induction l with
  | nil =>
    intro ys h
    rw [List.mapM_nil] at h
    cases h
    simp
  | cons a t ih =>
    intro ys h
    rw [List.mapM_cons] at h
    cases ha : f a with
    | none => rw [ha] at h; simp at h
    | some y =>
      rw [ha] at h
      cases ht : t.mapM f with
      | none => rw [ht] at h; simp at h
      | some ys' =>
        rw [ht] at h
        simp at h
        subst h
        obtain ⟨h1, h2⟩ := ih ys' ht
        refine ⟨by simp [h1], ?_⟩
        intro x hx
        rcases List.mem_cons.mp hx with rfl | hx'
        · exact ⟨y, List.mem_cons_self _ _, ha⟩
        · obtain ⟨y', hy', hfy'⟩ := h2 x hx'
          exact ⟨y', List.mem_cons_of_mem _ hy', hfy'⟩

theorem mapM_eq_some_of_forall_isSome {α β : Type} (f : α → Option β) :
    ∀ (l : List α), (∀ x ∈ l, (f x).isSome) → ∃ ys, l.mapM f = some ys := by
  intro l
  induction l with
  | nil => intro _; exact ⟨[], by rw [List.mapM_nil]; rfl⟩
  | cons a t ih =>
    intro h
    obtain ⟨y, hy⟩ := Option.isSome_iff_exists.mp (h a (List.mem_cons_self _ _))
    obtain ⟨ys, hys⟩ := ih (fun x hx => h x (List.mem_cons_of_mem _ hx))
    exact ⟨y :: ys, by rw [List.mapM_cons, hy, hys]; rfl⟩

/-- Every member of `perms3 l` is a three-element list of members of `l`. -/
theorem mem_perms3 {α : Type} {l : List α} {t : List α} (h : t ∈ perms3 l) :
    ∃ a b c, t = [a, b, c] ∧ a ∈ l ∧ b ∈ l ∧ c ∈ l := by
  simp only [perms3, List.mem_flatMap] at h
  obtain ⟨p, hp, q, hq, r, hr, hif⟩ := h
  by_cases hd : p.1 ≠ q.1 ∧ q.1 ≠ r.1 ∧ p.1 ≠ r.1
  · rw [if_pos hd] at hif
    simp at hif
    subst hif
    have hmem : ∀ {x : ℕ × α}, x ∈ l.enum → x.2 ∈ l := by
      intro x hx
      obtain ⟨i, a⟩ := x
      rw [List.mk_mem_enum_iff_getElem?] at hx
      exact List.getElem?_mem hx
    exact ⟨p.2, q.2, r.2, rfl, hmem hp, hmem hq, hmem hr⟩
  · rw [if_neg hd] at hif
    simp at hif

/-- A row's `angleBAC` entry is the float `nan` exactly when one of the two
vectors `B - A`, `C - A` has zero norm. -/
theorem angleDeg_eq_none_iff (u v : Pt) :
    angleDeg u v = none ↔ norm3 u * norm3 v = 0 := by
  unfold angleDeg
  split <;> simp_all

/-- Unfolding `mkRow` when every name is well-formed. -/
theorem mkRow_eq_some {cs : List (String × Pt)} {combo : List String}
    {r : ComboRow} (h : mkRow cs combo = some r) :
    r = { nameA := (formatName (combo.getD 0 "")).getD ""
          nameB := (formatName (combo.getD 1 "")).getD ""
          nameC := (formatName (combo.getD 2 "")).getD ""
          distAB := dist3 (cLookup cs (combo.getD 0 "")) (cLookup cs (combo.getD 1 ""))
          distAC := dist3 (cLookup cs (combo.getD 0 "")) (cLookup cs (combo.getD 2 ""))
          distAO := dist3 (cLookup cs (combo.getD 0 "")) (0, 0, 0)
          angleBAC := angleDeg
            (vsub (cLookup cs (combo.getD 1 "")) (cLookup cs (combo.getD 0 "")))
            (vsub (cLookup cs (combo.getD 2 "")) (cLookup cs (combo.getD 0 "")))
          angleOAB := angleDeg
            (vsub (0, 0, 0) (cLookup cs (combo.getD 0 "")))
            (vsub (cLookup cs (combo.getD 1 "")) (cLookup cs (combo.getD 0 "")))
          angleOAC := angleDeg
            (vsub (0, 0, 0) (cLookup cs (combo.getD 0 "")))
            (vsub (cLookup cs (combo.getD 2 "")) (cLookup cs (combo.getD 0 ""))) } := by
  cases hA : formatName (combo.getD 0 "") with
  | none => unfold mkRow at h; rw [hA] at h; simp at h
  | some nA =>
    cases hB : formatName (combo.getD 1 "") with
    | none => unfold mkRow at h; rw [hA, hB] at h; simp at h
    | some nB =>
      cases hC : formatName (combo.getD 2 "") with
      | none => unfold mkRow at h; rw [hA, hB, hC] at h; simp at h
      | some nC =>
        unfold mkRow at h
        rw [hA, hB, hC] at h
        simp at h
        subst h
        simp [hA, hB, hC]

/-! ## Concrete frames used by the claims about `getAngleDistCombos` -/

/-- The synthetic frame of the spec's end-to-end example: three objects with
centroids `A = (0,0,0)`, `B = (1,0,0)`, `C = (0,1,0)` (keys rendered the way
`str(Object1.getName())` renders them). -/
def cs9 : List (String × Pt) :=
  [("[a, 1]", (0, 0, 0)), ("[b, 1]", (1, 0, 0)), ("[c, 1]", (0, 1, 0))]

/-- A frame with a degenerate triplet: objects `a` and `b` share the centroid
`(1,0,0)`, so `B - A` has zero length for the triplet `(a, b, c)`. -/
def cs3 : List (String × Pt) :=
  [("[a, 1]", (1, 0, 0)), ("[b, 1]", (1, 0, 0)), ("[c, 1]", (2, 0, 0))]

/-- A frame whose first triplet has three pairwise different angles
(`angleBAC = 90°`, `angleOAB = 180°`, `angleOAC = 90°`), making the column
mislabeling of the export observable. -/
def cs1 : List (String × Pt) :=
  [("[a, 1]", (1, 0, 0)), ("[b, 1]", (2, 0, 0)), ("[c, 1]", (1, 1, 0))]

/-- Claim C9 (counterexample): for the frame with centroids `A=(0,0,0)`,
`B=(1,0,0)`, `C=(0,1,0)` the claim asserts `distAO = 2.0` (origin `(0,0,2)`),
but `getAngleDistCombos` hard-codes the sensor origin at `(0,0,0)`
(collect_data.py line 147), so the record stored for the ordered triplet
`(A,B,C)` has `distAO = 0`, not `2`. -/
theorem c9_distAO_counterexample :
    ∃ r : ComboRow, (getAngleDistCombos cs9).bind List.head? = some r ∧
      r.nameA = "a_1" ∧ r.nameB = "b_1" ∧ r.nameC = "c_1" ∧
      r.distAO = 0 ∧ ¬ r.distAO = 2 := by
  refine ⟨_, rfl, rfl, rfl, rfl, ?_, ?_⟩
  · show dist3 (0, 0, 0) (0, 0, 0) = 0
    simp [dist3, norm3, vsub]
  · show ¬ dist3 (0, 0, 0) (0, 0, 0) = 2
    simp [dist3, norm3, vsub]

/-- Claim C9 (amended): for the synthetic frame `A=(0,0,0)`, `B=(1,0,0)`,
`C=(0,1,0)` and the hard-coded sensor origin `O=(0,0,0)` of the code, the
record produced for the ordered triplet `(A,B,C)` carries `distAB = 1`,
`distAC = 1`, `distAO = 0` and `angleBAC = 90` degrees. -/
theorem c9_synthetic_frame_values :
    ∃ r : ComboRow, (getAngleDistCombos cs9).bind List.head? = some r ∧
      r.nameA = "a_1" ∧ r.nameB = "b_1" ∧ r.nameC = "c_1" ∧
      r.distAB = 1 ∧ r.distAC = 1 ∧ r.distAO = 0 ∧ r.angleBAC = some 90 := by
  refine ⟨_, rfl, rfl, rfl, rfl, ?_, ?_, ?_, ?_⟩
  · show dist3 (0, 0, 0) (1, 0, 0) = 1
    simp [dist3, norm3, vsub]
  · show dist3 (0, 0, 0) (0, 1, 0) = 1
    simp [dist3, norm3, vsub]
  · show dist3 (0, 0, 0) (0, 0, 0) = 0
    simp [dist3, norm3, vsub]
  · show angleDeg (vsub (1, 0, 0) (0, 0, 0)) (vsub (0, 1, 0) (0, 0, 0)) = some 90
    rw [angleDeg, if_neg]
    · norm_num [norm3, dot3, vsub, degrees, Real.arccos_zero]
      field_simp
      ring
    · norm_num [norm3, vsub]

/-- Claim C3 (counterexample): in the frame `cs3` the vector `B - A` of the
ordered triplet `(a, b, c)` has zero length, yet a record for `(a, b, c)` IS
appended to the frame's combo list (the claim asserts it is skipped): the list
holds all `6` permutations and its first record is the `(a, b, c)` one, its
undefined angles stored as float `nan` (modelled `none`). -/
theorem c3_degenerate_not_skipped_counterexample :
    (getAngleDistCombos cs3).map List.length = some 6 ∧
    ∃ r : ComboRow, (getAngleDistCombos cs3).bind List.head? = some r ∧
      r.nameA = "a_1" ∧ r.nameB = "b_1" ∧ r.nameC = "c_1" ∧
      norm3 (vsub (cLookup cs3 "[b, 1]") (cLookup cs3 "[a, 1]")) = 0 ∧
      r.angleBAC = none ∧ r.angleOAB = none ∧ r.angleOAC = some 180 := by
  refine ⟨rfl, _, rfl, rfl, rfl, rfl, ?_, ?_, ?_, ?_⟩
  · show norm3 (vsub (1, 0, 0) (1, 0, 0)) = 0
    simp [norm3, vsub]
  · show angleDeg (vsub (1, 0, 0) (1, 0, 0)) (vsub (2, 0, 0) (1, 0, 0)) = none
    simp [angleDeg, norm3, vsub]
  · show angleDeg (vsub (0, 0, 0) (1, 0, 0)) (vsub (1, 0, 0) (1, 0, 0)) = none
    simp [angleDeg, norm3, vsub]
  · show angleDeg (vsub (0, 0, 0) (1, 0, 0)) (vsub (2, 0, 0) (1, 0, 0)) = some 180
    rw [angleDeg, if_neg]
    · norm_num [norm3, dot3, vsub, degrees]
      field_simp
    · norm_num [norm3, vsub]

/-- Claim C3 (amended): `getAngleDistCombos` never skips a triplet.  For every
centroid dictionary whose keys are well-formed, the extraction succeeds, emits
exactly one record per ordered triplet of distinct objects — including the
degenerate ones — and a record's `angleBAC` entry is the undefined float `nan`
(modelled `none`) precisely when `B - A` or `C - A` has zero norm. -/
theorem c3_degenerate_row_emitted (cs : List (String × Pt))
    (h : ∀ n ∈ cs.map Prod.fst, (formatName n).isSome) :
    ∃ rows, getAngleDistCombos cs = some rows ∧
      rows.length = (perms3 (cs.map Prod.fst)).length ∧
      ∀ t ∈ perms3 (cs.map Prod.fst), ∃ r ∈ rows, mkRow cs t = some r ∧
        (r.angleBAC = none ↔
          norm3 (vsub (cLookup cs (t.getD 1 "")) (cLookup cs (t.getD 0 ""))) *
          norm3 (vsub (cLookup cs (t.getD 2 "")) (cLookup cs (t.getD 0 ""))) = 0) := by
  have hall : ∀ t ∈ perms3 (cs.map Prod.fst), (mkRow cs t).isSome := by
    intro t ht
    obtain ⟨a, b, c, rfl, ha, hb, hc⟩ := mem_perms3 ht
    obtain ⟨nA, hnA⟩ := Option.isSome_iff_exists.mp (h a ha)
    obtain ⟨nB, hnB⟩ := Option.isSome_iff_exists.mp (h b hb)
    obtain ⟨nC, hnC⟩ := Option.isSome_iff_exists.mp (h c hc)
    unfold mkRow
    simp only [List.getD_cons_zero, List.getD_cons_succ]
    rw [hnA, hnB, hnC]
    rfl
  obtain ⟨rows, hrows⟩ := mapM_eq_some_of_forall_isSome (mkRow cs) _ hall
  obtain ⟨hlen, hmem⟩ := mapM_eq_some_char (mkRow cs) _ rows hrows
  refine ⟨rows, hrows, hlen, ?_⟩
  intro t ht
  obtain ⟨r, hr, hmk⟩ := hmem t ht
  refine ⟨r, hr, hmk, ?_⟩
  have := mkRow_eq_some hmk
  subst this
  exact angleDeg_eq_none_iff _ _

/-- Witness for `c3_degenerate_row_emitted` at the concrete frame `cs3`. -/
theorem c3_degenerate_row_emitted_witness :
    (∀ n ∈ cs3.map Prod.fst, (formatName n).isSome) ∧
    ∃ rows, getAngleDistCombos cs3 = some rows ∧
      rows.length = (perms3 (cs3.map Prod.fst)).length ∧
      ∀ t ∈ perms3 (cs3.map Prod.fst), ∃ r ∈ rows, mkRow cs3 t = some r ∧
        (r.angleBAC = none ↔
          norm3 (vsub (cLookup cs3 (t.getD 1 "")) (cLookup cs3 (t.getD 0 ""))) *
          norm3 (vsub (cLookup cs3 (t.getD 2 "")) (cLookup cs3 (t.getD 0 ""))) = 0) :=
  ⟨by decide, c3_degenerate_row_emitted cs3 (by decide)⟩

/-- Claim C1 (code bug): the per-scene csv export pairs the header names with
the wrong angle cells.  Structurally, for every combo row the cell stored under
the header `angleOAB` is the row's `angleBAC` value, the cell under `angleOAC`
is `angleOAB`, and the cell under `angleBAC` is `angleOAC` (collect_data.py
line 171-172 vs the header of line 284).  At the concrete frame `cs1` the
mismatch is observable: the column headed `angleOAB` stores `90`° while the
angle the header names — `arccos((O−A)·(B−A)/(‖O−A‖‖B−A‖))` — is `180`°. -/
theorem c1_angle_columns_mislabeled :
    (∀ r : ComboRow,
        storedUnder "angleOAB" r = some (.num r.angleBAC) ∧
        storedUnder "angleOAC" r = some (.num r.angleOAB) ∧
        storedUnder "angleBAC" r = some (.num r.angleOAC)) ∧
    ∃ r : ComboRow, (getAngleDistCombos cs1).bind List.head? = some r ∧
      r.angleBAC = some 90 ∧ r.angleOAB = some 180 ∧
      ¬ storedUnder "angleOAB" r = some (.num r.angleOAB) := by
  have h90 : angleDeg (vsub (2, 0, 0) (1, 0, 0)) (vsub (1, 1, 0) (1, 0, 0)) =
      some 90 := by
    rw [angleDeg, if_neg]
    · norm_num [norm3, dot3, vsub, degrees, Real.arccos_zero]
      field_simp
      ring
    · norm_num [norm3, vsub]
  have h180 : angleDeg (vsub (0, 0, 0) (1, 0, 0)) (vsub (2, 0, 0) (1, 0, 0)) =
      some 180 := by
    rw [angleDeg, if_neg]
    · norm_num [norm3, dot3, vsub, degrees]
      field_simp
    · norm_num [norm3, vsub]
  refine ⟨fun r => ⟨rfl, rfl, rfl⟩, _, rfl, h90, h180, ?_⟩
  intro hcontra
  have hc : Cell.num (angleDeg (vsub (2, 0, 0) (1, 0, 0)) (vsub (1, 1, 0) (1, 0, 0))) =
      Cell.num (angleDeg (vsub (0, 0, 0) (1, 0, 0)) (vsub (2, 0, 0) (1, 0, 0))) :=
    Option.some.inj hcontra
  rw [h90, h180] at hc
  simp at hc

/-! ## prepare_data.py: corpus aggregation

The aggregation code (`gatherTriplets`, `averageTriplets` and the dictionary
construction of `calculateCoords`) performs only field arithmetic on the
values it reads, so it is embedded over `ℚ`; the corresponding claims are
stated over exact arithmetic. -/

/-- Concatenate character groups with separator `c` (`c.flatten(parts)`). -/
def joinWith (c : Char) : List (List Char) → List Char
  | [] => []
  | [g] => g
  | g :: gs => g ++ c :: joinWith c gs

/-- `name.rsplit('_', 1)[0]`: strip the last `_`-separated chunk of a name
(the numeric disambiguator); a name without `_` is returned unchanged
(prepare_data.py lines 62-64 and 94-96). -/
def canonName (s : String) : String :=
  let parts := splitChar '_' s.data
  if parts.length ≤ 1 then s else String.mk (joinWith '_' parts.dropLast)

/-- One data row of a per-scene triplet csv file.  The numeric fields are
named after the HEADER COLUMN they sit under
(`objectA,...,distanceAO, angleOAB, angleOAC, angleBAC`); which geometric
quantity each column actually contains is a property of the writer
(see `storedUnder` and claim C1). -/
structure CsvRow where
  objectA : String
  objectB : String
  objectC : String
  distanceAB : ℚ
  distanceAC : ℚ
  distanceAO : ℚ
  angleOAB : ℚ
  angleOAC : ℚ
  angleBAC : ℚ
deriving DecidableEq

/-- The grouping key `','.flatten([objA,objB,objC])` built from the
disambiguator-stripped names (prepare_data.py lines 94-97). -/
def rawRowKey (r : CsvRow) : String :=
  canonName r.objectA ++ "," ++ canonName r.objectB ++ "," ++ canonName r.objectC

/-- The `averages[triplet]` accumulator of `averageTriplets`: six lists of
observed values plus the running count (prepare_data.py line 105). -/
structure AvgEntry where
  dABs : List ℚ
  dACs : List ℚ
  dAOs : List ℚ
  aBACs : List ℚ
  aOABs : List ℚ
  aOACs : List ℚ
  count : ℕ
deriving DecidableEq

/-- First observation of a key (prepare_data.py lines 98-105).  Note lines
101-103 read the angle columns crosswise: the `angBAC` slot is loaded from the
column headed `angleOAB`, `angOAB` from `angleOAC` and `angOAC` from
`angleBAC` — undoing the writer's column mislabeling. -/
def initEntry (r : CsvRow) : AvgEntry :=
  { dABs := [r.distanceAB], dACs := [r.distanceAC], dAOs := [r.distanceAO]
    aBACs := [r.angleOAB], aOABs := [r.angleOAC], aOACs := [r.angleBAC]
    count := 1 }

/-- Subsequent observation of a key (prepare_data.py lines 107-113), with the
same crosswise column reads. -/
def pushEntry (e : AvgEntry) (r : CsvRow) : AvgEntry :=
  { dABs := e.dABs ++ [r.distanceAB], dACs := e.dACs ++ [r.distanceAC]
    dAOs := e.dAOs ++ [r.distanceAO], aBACs := e.aBACs ++ [r.angleOAB]
    aOABs := e.aOABs ++ [r.angleOAC], aOACs := e.aOACs ++ [r.angleBAC]
    count := e.count + 1 }

/-- Update-or-insert on an association list, preserving the position of an
existing key (Python `dict` assignment semantics). -/
def assocStep {β : Type} (k : String) (f : Option β → β) :
    List (String × β) → List (String × β)
  | [] => [(k, f none)]
  | (k', v) :: rest =>
    if k' = k then (k', f (some v)) :: rest else (k', v) :: assocStep k f rest

/-- Association-list lookup (Python `dict` access). -/
def lookupA {β : Type} : List (String × β) → String → Option β
  | [], _ => none
  | (k', v) :: rest, k => if k' = k then some v else lookupA rest k

/-- The per-row update of the `averages` dictionary entry: create the entry on
first sight of a key, extend it afterwards (prepare_data.py lines 104-113). -/
def updateFn (e? : Option AvgEntry) (r : CsvRow) : AvgEntry :=
  match e? with
  | none => initEntry r
  | some e => pushEntry e r

/-- The `averages` dictionary after folding all corpus rows
(prepare_data.py lines 83-113; the per-scene files are read in sequence and
each row updates the dictionary in place). -/
def averagesOf (rows : List CsvRow) : List (String × AvgEntry) :=
  rows.foldl (fun m r => assocStep (rawRowKey r) (fun e? => updateFn e? r) m) []

/-- A `comboData` value: the list
`[distanceAB, distanceAC, distanceAO, angleBAC-slot, angleOAB-slot, angleOAC-slot, count]`
that `calculateCoords` stores per triplet key (prepare_data.py lines 265-267
and 280-281).  The three angle slots are named after the position the solver
reads them from (`data[3]` is used as angle BAC, etc.). -/
structure ComboQ where
  dAB : ℚ
  dAC : ℚ
  dAO : ℚ
  aBAC : ℚ
  aOAB : ℚ
  aOAC : ℚ
  count : ℕ
deriving DecidableEq

/-- The averaged output fields of one key: `sum(values[i])/values[6]` plus the
count (prepare_data.py lines 118-129); the resulting columns
`distanceAB ... angleOAC, count` are then read back verbatim into `comboData`
by the averaging branch of `calculateCoords` (lines 260-268). -/
def meanEntry (e : AvgEntry) : ComboQ :=
  { dAB := e.dABs.sum / (e.count : ℚ), dAC := e.dACs.sum / (e.count : ℚ)
    dAO := e.dAOs.sum / (e.count : ℚ), aBAC := e.aBACs.sum / (e.count : ℚ)
    aOAB := e.aOABs.sum / (e.count : ℚ), aOAC := e.aOACs.sum / (e.count : ℚ)
    count := e.count }

/-- `averageTriplets` (prepare_data.py lines 72-138): the averaged-triplet
table persisted to `triplets_avg.csv` / the pickle, one keyed row of means
plus count per canonicalized triplet. -/
def averageTriplets (corpus : List CsvRow) : List (String × ComboQ) :=
  (averagesOf corpus).map (fun p => (p.1, meanEntry p.2))

/-- The relation table `calculateCoords` uses in averaging mode: the averaged
triplet table keyed by `f'{objA},{objB},{objC}'` (prepare_data.py lines
258-268), built from the raw per-scene corpus rows. -/
def averagingDict (corpus : List CsvRow) (k : String) : Option ComboQ :=
  (lookupA (averagesOf corpus) k).map meanEntry

/-- `gatherTriplets` (prepare_data.py lines 60-65): canonicalize the three
object names of a row; the numeric columns are copied unchanged. -/
def gatherRow (r : CsvRow) : CsvRow :=
  { r with objectA := canonName r.objectA, objectB := canonName r.objectB
           objectC := canonName r.objectC }

/-- The content of `triplets.csv`: every corpus row with canonicalized names.
(`gatherTriplets` also sorts the rows; the sampling branch reshuffles them, so
the embedding takes the shuffled row list as an input.) -/
def gatherRows (rows : List CsvRow) : List CsvRow := rows.map gatherRow

/-- The key `f'{objA},{objB},{objC}'` of a gathered row, read directly from
its (already canonical) name columns (prepare_data.py lines 277-282). -/
def plainRowKey (r : CsvRow) : String :=
  r.objectA ++ "," ++ r.objectB ++ "," ++ r.objectC

/-- Worker for `dedupByKey`: keep a row only when its name triple has not been
seen yet. -/
def dedupGo (seen : List (String × String × String)) : List CsvRow → List CsvRow
  | [] => []
  | r :: rest =>
    if (r.objectA, r.objectB, r.objectC) ∈ seen then dedupGo seen rest
    else r :: dedupGo ((r.objectA, r.objectB, r.objectC) :: seen) rest

/-- `df.drop_duplicates(subset=['objectA','objectB','objectC'], keep='first')`:
keep the first row of each name triple. -/
def dedupByKey (l : List CsvRow) : List CsvRow := dedupGo [] l

/-- The `comboData` row of the sampling branch (prepare_data.py lines
280-281): the slots are read from the columns named `angleBAC`, `angleOAB`,
`angleOAC` of `triplets.csv` — the raw (mislabeled) writer columns, with no
crosswise compensation — and the count is hard-coded `1`. -/
def comboOfRow (r : CsvRow) : ComboQ :=
  { dAB := r.distanceAB, dAC := r.distanceAC, dAO := r.distanceAO
    aBAC := r.angleBAC, aOAB := r.angleOAB, aOAC := r.angleOAC, count := 1 }

/-- The relation table `calculateCoords` uses in sampling mode, built from the
shuffled `triplets.csv` rows: shuffle (`df.sample(frac=1)`, the shuffled list
is the input here), deduplicate keeping the first of each name triple, then
key each surviving row by `f'{objA},{objB},{objC}'` (prepare_data.py lines
271-282). -/
def samplingDict (shuffled : List CsvRow) (k : String) : Option ComboQ :=
  lookupA
    ((dedupByKey shuffled).foldl
      (fun m r => assocStep (plainRowKey r) (fun _ => comboOfRow r) m) [])
    k

/-! ## Characterization of the aggregation (helper lemmas) -/

/-- Characterization helper (not part of the embedding): the accumulator entry
a list of observations produces — the six observed-value lists in corpus
order, and their common length as the count. -/
def entryOfRows (obs : List CsvRow) : AvgEntry :=
  { dABs := obs.map (·.distanceAB), dACs := obs.map (·.distanceAC)
    dAOs := obs.map (·.distanceAO), aBACs := obs.map (·.angleOAB)
    aOABs := obs.map (·.angleOAC), aOACs := obs.map (·.angleBAC)
    count := obs.length }

/-- `lookupA` commutes with a key-preserving value map, so `averagingDict` is
exactly lookup in the persisted `averageTriplets` table. -/
theorem lookupA_map_snd {β γ : Type} (f : β → γ) :
    ∀ (m : List (String × β)) (k : String),
      lookupA (m.map (fun p => (p.1, f p.2))) k = (lookupA m k).map f := by
  intro m
  induction m with
  | nil => intro k; rfl
  | cons p rest ih =>
    intro k
    obtain ⟨k', v⟩ := p
    by_cases h : k' = k
    · simp [lookupA, h]
    · simp [lookupA, h, ih]

theorem averagingDict_eq_lookup_averageTriplets (corpus : List CsvRow)
    (k : String) : lookupA (averageTriplets corpus) k = averagingDict corpus k :=
  lookupA_map_snd meanEntry (averagesOf corpus) k

theorem lookupA_assocStep_self {β : Type} (k : String) (f : Option β → β) :
    ∀ m : List (String × β), lookupA (assocStep k f m) k = some (f (lookupA m k)) := by
  intro m
  induction m with
  | nil => simp [assocStep, lookupA]
  | cons p rest ih =>
    obtain ⟨k', v⟩ := p
    by_cases h : k' = k
    · simp [assocStep, lookupA, h]
    · simp [assocStep, lookupA, h, ih]

theorem lookupA_assocStep_ne {β : Type} {k t : String} (hne : ¬k = t)
    (f : Option β → β) :
    ∀ m : List (String × β), lookupA (assocStep k f m) t = lookupA m t := by
  intro m
  induction m with
  | nil => simp [assocStep, lookupA, hne]
  | cons p rest ih =>
    obtain ⟨k', v⟩ := p
    by_cases h : k' = k
    · subst h
      simp [assocStep, lookupA, hne]
    · simp [assocStep, lookupA, h, ih]

/-- Folding association-list updates keyed by `key` commutes with filtering
the rows whose key is `k`: only those rows touch the `k` entry, in order. -/
theorem lookupA_foldl_assoc {β : Type} (key : CsvRow → String)
    (g : Option β → CsvRow → β) (k : String) :
    ∀ (rows : List CsvRow) (m : List (String × β)),
      lookupA (rows.foldl (fun m r => assocStep (key r) (fun e? => g e? r) m) m) k =
        (rows.filter (fun r => key r = k)).foldl (fun e? r => some (g e? r))
          (lookupA m k) := by
  intro rows
  induction rows with
  | nil => intro m; simp
  | cons r rest ih =>
    intro m
    by_cases h : key r = k
    · subst h
      rw [List.foldl_cons, ih, lookupA_assocStep_self, List.filter_cons]
      simp
    · rw [List.foldl_cons, ih, lookupA_assocStep_ne h, List.filter_cons]
      simp [h]

theorem foldl_push_some :
    ∀ (obs : List CsvRow) (e : AvgEntry),
      obs.foldl (fun e? r => some (updateFn e? r)) (some e) =
        some (obs.foldl pushEntry e) := by
  intro obs
  induction obs with
  | nil => intro e; rfl
  | cons r rest ih => intro e; rw [List.foldl_cons]; exact ih (pushEntry e r)

theorem foldl_pushEntry_entryOfRows :
    ∀ (obs pre : List CsvRow),
      obs.foldl pushEntry (entryOfRows pre) = entryOfRows (pre ++ obs) := by
  intro obs
  induction obs with
  | nil => intro pre; simp
  | cons r rest ih =>
    intro pre
    have h1 : pushEntry (entryOfRows pre) r = entryOfRows (pre ++ [r]) := by
      simp [pushEntry, entryOfRows]
    rw [List.foldl_cons, h1, ih]
    simp

/-- The `averages` dictionary entry of a key is exactly the accumulated
observations of that key, in corpus order. -/
theorem lookupA_averagesOf (corpus : List CsvRow) (k : String) :
    lookupA (averagesOf corpus) k =
      match corpus.filter (fun r => rawRowKey r = k) with
      | [] => none
      | o :: rest => some (entryOfRows (o :: rest)) := by
  unfold averagesOf
  rw [lookupA_foldl_assoc rawRowKey updateFn k]
  cases hobs : corpus.filter (fun r => rawRowKey r = k) with
  | nil => rfl
  | cons o rest =>
    show (o :: rest).foldl _ (lookupA ([] : List (String × AvgEntry)) k) = _
    simp only [lookupA, List.foldl_cons]
    have hinit : updateFn (none : Option AvgEntry) o = entryOfRows [o] := by
      simp [updateFn, initEntry, entryOfRows]
    rw [hinit, foldl_push_some, foldl_pushEntry_entryOfRows]
    rfl

/-- The averaged fields are invariant under permutation of the observations. -/
theorem meanEntry_entryOfRows_perm {obs obs' : List CsvRow} (h : obs.Perm obs') :
    meanEntry (entryOfRows obs) = meanEntry (entryOfRows obs') := by
  simp only [meanEntry, entryOfRows, ComboQ.mk.injEq]
  refine ⟨?_, ?_, ?_, ?_, ?_, ?_, h.length_eq⟩ <;>
    rw [(h.map _).sum_eq, h.length_eq]

/-- The averaging-mode relation table is invariant under permutation of the
corpus rows. -/
theorem averagingDict_perm {rows rows' : List CsvRow} (h : rows.Perm rows')
    (k : String) : averagingDict rows k = averagingDict rows' k := by
  unfold averagingDict
  rw [lookupA_averagesOf, lookupA_averagesOf]
  have hf : (rows.filter (fun r => rawRowKey r = k)).Perm
      (rows'.filter (fun r => rawRowKey r = k)) := h.filter _
  cases h1 : rows.filter (fun r => rawRowKey r = k) with
  | nil =>
    rw [h1] at hf
    rw [List.Perm.eq_nil hf.symm]
  | cons o rest =>
    rw [h1] at hf
    cases h2 : rows'.filter (fun r => rawRowKey r = k) with
    | nil => rw [h2] at hf; exact absurd hf.symm (by simp)
    | cons o' rest' =>
      rw [h2] at hf
      simp [meanEntry_entryOfRows_perm hf]

theorem filter_length_le_one {α : Type} (f : α → String) {l : List α}
    (h : (l.map f).Nodup) (k : String) :
    (l.filter (fun x => f x = k)).length ≤ 1 := by
  induction l with
  | nil => simp
  | cons a t ih =>
    simp only [List.map_cons, List.nodup_cons] at h
    obtain ⟨hna, hnd⟩ := h
    by_cases hak : f a = k
    · subst hak
      have ht : t.filter (fun x => f x = f a) = [] := by
        rw [List.filter_eq_nil_iff]
        intro x hx
        simp only [decide_eq_true_eq]
        intro hfx
        exact hna (hfx ▸ List.mem_map_of_mem f hx)
      simp [List.filter_cons, ht]
    · simp only [List.filter_cons, decide_eq_true_eq, hak, if_false]
      exact ih hnd

theorem dedupGo_eq_self :
    ∀ (l : List CsvRow) (seen : List (String × String × String)),
      ((l.map plainRowKey).Nodup) →
      (∀ r ∈ l, (r.objectA, r.objectB, r.objectC) ∉ seen) →
      dedupGo seen l = l := by
  intro l
  induction l with
  | nil => intro seen _ _; rfl
  | cons r rest ih =>
    intro seen h hseen
    simp only [List.map_cons, List.nodup_cons] at h
    obtain ⟨hna, hnd⟩ := h
    rw [dedupGo, if_neg (hseen r (List.mem_cons_self _ _))]
    congr 1
    refine ih _ hnd ?_
    intro q hq
    simp only [List.mem_cons]
    intro hmem
    rcases hmem with heq | hmem'
    · have h1 : q.objectA = r.objectA := congrArg Prod.fst heq
      have h23 := congrArg Prod.snd heq
      have h2 : q.objectB = r.objectB := congrArg Prod.fst h23
      have h3 : q.objectC = r.objectC := congrArg Prod.snd h23
      exact hna (by
        have : plainRowKey q = plainRowKey r := by simp [plainRowKey, h1, h2, h3]
        exact this ▸ List.mem_map_of_mem plainRowKey hq)
    · exact hseen q (List.mem_cons_of_mem _ hq) hmem'

/-- Deduplication removes nothing from a list whose keys are unique. -/
theorem dedupByKey_eq_self {l : List CsvRow}
    (h : (l.map plainRowKey).Nodup) : dedupByKey l = l :=
  dedupGo_eq_self l [] h (by simp)

/-- With unique keys, the sampling-mode relation table maps a key to the
(unique) gathered row bearing it. -/
theorem samplingDict_char {shuffled : List CsvRow}
    (h : (shuffled.map plainRowKey).Nodup) (k : String) :
    samplingDict shuffled k =
      match shuffled.filter (fun r => plainRowKey r = k) with
      | [] => none
      | o :: _ => some (comboOfRow o) := by
  unfold samplingDict
  rw [dedupByKey_eq_self h]
  rw [lookupA_foldl_assoc plainRowKey (fun _ r => comboOfRow r) k]
  have hle := filter_length_le_one plainRowKey h k
  cases hobs : shuffled.filter (fun r => plainRowKey r = k) with
  | nil => rfl
  | cons o rest =>
    rw [hobs] at hle
    simp only [List.length_cons] at hle
    have : rest = [] := by
      cases rest with
      | nil => rfl
      | cons x xs => simp at hle
    subst this
    rfl

/-! ## Claims C2 and C4 -/

/-- A spec-level `TripletRecord`: the geometric quantities the extractor
computes for one ordered triplet, under their semantic names
(collect_data.py lines 152-163). -/
structure TripletRecord where
  objA : String
  objB : String
  objC : String
  distAB : ℚ
  distAC : ℚ
  distAO : ℚ
  angleBAC : ℚ
  angleOAB : ℚ
  angleOAC : ℚ
deriving DecidableEq

/-- How `collect_data.py` persists a record: the data cells are written in the
order `distAB, distAC, distAO, angleBAC, angleOAB, angleOAC` (line 171-172)
underneath the header `..., angleOAB, angleOAC, angleBAC` (line 284), so the
column headed `angleOAB` receives the BAC angle, `angleOAC` receives OAB and
`angleBAC` receives OAC. -/
def storeRow (t : TripletRecord) : CsvRow :=
  { objectA := t.objA, objectB := t.objB, objectC := t.objC
    distanceAB := t.distAB, distanceAC := t.distAC, distanceAO := t.distAO
    angleOAB := t.angleBAC, angleOAC := t.angleOAB, angleBAC := t.angleOAC }

/-- The canonicalized grouping key of a record. -/
def recKey (t : TripletRecord) : String :=
  canonName t.objA ++ "," ++ canonName t.objB ++ "," ++ canonName t.objC

/-- Claim C4: averaging-mode aggregation groups the corpus records by exact
canonicalized key and outputs, per key, the arithmetic mean of every numeric
field of the observations plus the observation count; consequently the output
table is invariant under any permutation of the scene files and of the records
within them (stated over the flattened corpus: permuting files and
in-file records permutes the flattened record list). -/
theorem c4_averaging_mean_perm_invariant
    (files files' : List (List TripletRecord))
    (hp : files.flatten.Perm files'.flatten) :
    (∀ k, averagingDict ((files.flatten).map storeRow) k
        = averagingDict ((files'.flatten).map storeRow) k) ∧
    (∀ k c, averagingDict ((files.flatten).map storeRow) k = some c →
      ∃ obs : List TripletRecord,
        obs = files.flatten.filter (fun t => recKey t = k) ∧ obs ≠ [] ∧
        c.dAB = (obs.map (·.distAB)).sum / (obs.length : ℚ) ∧
        c.dAC = (obs.map (·.distAC)).sum / (obs.length : ℚ) ∧
        c.dAO = (obs.map (·.distAO)).sum / (obs.length : ℚ) ∧
        c.aBAC = (obs.map (·.angleBAC)).sum / (obs.length : ℚ) ∧
        c.aOAB = (obs.map (·.angleOAB)).sum / (obs.length : ℚ) ∧
        c.aOAC = (obs.map (·.angleOAC)).sum / (obs.length : ℚ) ∧
        c.count = obs.length) := by
  constructor
  · intro k
    exact averagingDict_perm (hp.map storeRow) k
  · intro k c hc
    have hfm : (files.flatten.map storeRow).filter (fun r => rawRowKey r = k)
        = (files.flatten.filter (fun t => recKey t = k)).map storeRow := by
      rw [List.filter_map]
      rfl
    have hchar : averagingDict ((files.flatten).map storeRow) k =
        match files.flatten.filter (fun t => recKey t = k) with
        | [] => none
        | o :: rest =>
          some (meanEntry (entryOfRows (storeRow o :: rest.map storeRow))) := by
      unfold averagingDict
      rw [lookupA_averagesOf, hfm]
      cases files.flatten.filter (fun t => recKey t = k) <;> rfl
    rw [hchar] at hc
    cases hobs : files.flatten.filter (fun t => recKey t = k) with
    | nil => rw [hobs] at hc; simp at hc
    | cons o rest =>
      rw [hobs] at hc
      have hceq : some (meanEntry (entryOfRows (storeRow o :: rest.map storeRow)))
          = some c := hc
      refine ⟨o :: rest, rfl, by simp, ?_, ?_, ?_, ?_, ?_, ?_, ?_⟩ <;>
      · rw [← Option.some.inj hceq]
        simp [meanEntry, entryOfRows, storeRow, List.map_map, Function.comp_def]

/-- A first sample record for the aggregation witnesses. -/
def rec1 : TripletRecord :=
  { objA := "a", objB := "b", objC := "c", distAB := 1, distAC := 1,
    distAO := 1, angleBAC := 10, angleOAB := 20, angleOAC := 30 }

/-- A second sample record with the same key as `rec1`. -/
def rec2 : TripletRecord :=
  { objA := "a", objB := "b", objC := "c", distAB := 3, distAC := 3,
    distAO := 3, angleBAC := 30, angleOAB := 40, angleOAC := 50 }

/-- Witness for `c4_averaging_mean_perm_invariant`: a two-scene corpus and its
file-swapped permutation. -/
theorem c4_averaging_mean_perm_invariant_witness :
    ([[rec1], [rec2]] : List (List TripletRecord)).flatten.Perm
      ([[rec2], [rec1]] : List (List TripletRecord)).flatten ∧
    averagingDict (([[rec1], [rec2]] :
        List (List TripletRecord)).flatten.map storeRow) "a,b,c"
      = averagingDict (([[rec2], [rec1]] :
        List (List TripletRecord)).flatten.map storeRow) "a,b,c" :=
  ⟨by decide, (c4_averaging_mean_perm_invariant _ _ (by decide)).1 "a,b,c"⟩

/-- The one-record corpus on which the two aggregation modes visibly differ:
its only row stores `10` under the column headed `angleOAB`, `20` under
`angleOAC` and `30` under `angleBAC`. -/
def corpus2 : List CsvRow :=
  [{ objectA := "a", objectB := "b", objectC := "c", distanceAB := 1,
     distanceAC := 2, distanceAO := 3, angleOAB := 10, angleOAC := 20,
     angleBAC := 30 }]

/-- Claim C2 (counterexample): on a corpus with exactly one record per key the
claim asserts the averaging-mode and sampling-mode tables agree on all six
numeric fields; they do not.  For `corpus2` (one record, unique key) the
angle-BAC slot of the averaging table is `10` (read from the column headed
`angleOAB`, prepare_data.py line 101) while the same slot of the sampling
table is `30` (read from the column headed `angleBAC`, line 281). -/
theorem c2_modes_differ_counterexample :
    ((gatherRows corpus2).map plainRowKey).Nodup ∧
    averagingDict corpus2 "a,b,c" =
      some { dAB := 1, dAC := 2, dAO := 3, aBAC := 10, aOAB := 20,
             aOAC := 30, count := 1 } ∧
    samplingDict (gatherRows corpus2) "a,b,c" =
      some { dAB := 1, dAC := 2, dAO := 3, aBAC := 30, aOAB := 10,
             aOAC := 20, count := 1 } ∧
    ¬ ((averagingDict corpus2 "a,b,c").map ComboQ.aBAC
        = (samplingDict (gatherRows corpus2) "a,b,c").map ComboQ.aBAC) := by
  have havg : averagingDict corpus2 "a,b,c" =
      some (meanEntry (entryOfRows corpus2)) := by
    unfold averagingDict
    rw [lookupA_averagesOf]
    rw [show corpus2.filter (fun r => rawRowKey r = "a,b,c") = corpus2 from by
      decide]
    rfl
  have hmean : meanEntry (entryOfRows corpus2) =
      { dAB := 1, dAC := 2, dAO := 3, aBAC := 10, aOAB := 20,
        aOAC := 30, count := 1 } := by
    norm_num [meanEntry, entryOfRows, corpus2]
  have hsamp : samplingDict (gatherRows corpus2) "a,b,c" =
      some { dAB := 1, dAC := 2, dAO := 3, aBAC := 30, aOAB := 10,
             aOAC := 20, count := 1 } := by rfl
  refine ⟨by decide, by rw [havg, hmean], hsamp, ?_⟩
  rw [havg, hmean, hsamp]
  simp

/-- Claim C2 (amended): on a corpus in which every canonicalized key has
exactly one record, the two modes agree on the three distance fields and the
count, but the three angle slots are cyclically shifted: the sampling table's
angle-BAC slot holds the averaging table's angle-OAC value, its angle-OAB slot
holds the averaging angle-BAC value, and its angle-OAC slot holds the
averaging angle-OAB value. -/
theorem c2_modes_cyclic_shift (corpus shuffled : List CsvRow)
    (hperm : shuffled.Perm (gatherRows corpus))
    (huniq : ((gatherRows corpus).map plainRowKey).Nodup) (k : String) :
    ((averagingDict corpus k).isSome ↔ (samplingDict shuffled k).isSome) ∧
    (∀ a s, averagingDict corpus k = some a → samplingDict shuffled k = some s →
      s.dAB = a.dAB ∧ s.dAC = a.dAC ∧ s.dAO = a.dAO ∧
      s.aBAC = a.aOAC ∧ s.aOAB = a.aBAC ∧ s.aOAC = a.aOAB ∧
      s.count = a.count) := by
  have hmapkeys : (gatherRows corpus).map plainRowKey = corpus.map rawRowKey := by
    unfold gatherRows
    rw [List.map_map]
    rfl
  have hnodupRaw : (corpus.map rawRowKey).Nodup := hmapkeys ▸ huniq
  have hnodupShuf : (shuffled.map plainRowKey).Nodup :=
    ((hperm.map plainRowKey).nodup_iff).mpr huniq
  have hfilgather : (gatherRows corpus).filter (fun r => plainRowKey r = k)
      = (corpus.filter (fun r => rawRowKey r = k)).map gatherRow := by
    unfold gatherRows
    rw [List.filter_map]
    rfl
  have hfs : (shuffled.filter (fun r => plainRowKey r = k)).Perm
      ((corpus.filter (fun r => rawRowKey r = k)).map gatherRow) :=
    hfilgather ▸ hperm.filter _
  rw [samplingDict_char hnodupShuf k]
  unfold averagingDict
  rw [lookupA_averagesOf]
  have hle := filter_length_le_one rawRowKey hnodupRaw k
  cases hobs : corpus.filter (fun r => rawRowKey r = k) with
  | nil =>
    rw [hobs] at hfs
    simp only [List.map_nil] at hfs
    rw [List.Perm.eq_nil hfs]
    simp
  | cons o rest =>
    rw [hobs] at hfs hle
    have hrest : rest = [] := by
      cases rest with
      | nil => rfl
      | cons x xs => simp at hle
    subst hrest
    simp only [List.map_cons, List.map_nil] at hfs
    rw [List.perm_singleton.mp hfs]
    constructor
    · simp
    · intro a s ha hs
      have ha' := (Option.some.inj ha).symm
      have hs' := (Option.some.inj hs).symm
      subst ha'
      subst hs'
      refine ⟨?_, ?_, ?_, ?_, ?_, ?_, ?_⟩ <;>
        simp [meanEntry, entryOfRows, comboOfRow, gatherRow]

/-- Witness for `c2_modes_cyclic_shift` at the one-record corpus `corpus2`
with the identity shuffle. -/
theorem c2_modes_cyclic_shift_witness :
    ((gatherRows corpus2).Perm (gatherRows corpus2) ∧
      ((gatherRows corpus2).map plainRowKey).Nodup) ∧
    (((averagingDict corpus2 "a,b,c").isSome ↔
        (samplingDict (gatherRows corpus2) "a,b,c").isSome) ∧
      (∀ a s, averagingDict corpus2 "a,b,c" = some a →
        samplingDict (gatherRows corpus2) "a,b,c" = some s →
        s.dAB = a.dAB ∧ s.dAC = a.dAC ∧ s.dAO = a.dAO ∧
        s.aBAC = a.aOAC ∧ s.aOAB = a.aBAC ∧ s.aOAC = a.aOAB ∧
        s.count = a.count)) :=
  ⟨⟨List.Perm.refl _, by decide⟩,
    c2_modes_cyclic_shift corpus2 (gatherRows corpus2) (List.Perm.refl _)
      (by decide) "a,b,c"⟩

/-! ## `approximateObjectSizes` (prepare_data.py lines 141-247)

The estimator collects, per object, the distances of its recorded 3D points to
its centroid, then computes a trimmed-median diameter and a confidence score.
The claims concern the arithmetic on the collected distance lists, embedded
over `ℚ`. -/

/-- Linear-interpolation median: sort ascending and average the two middle
elements (`pandas.Series.median()` and `np.median` both interpolate this way;
for odd length the two indices coincide). -/
def medianQ (l : List ℚ) : ℚ :=
  let s := List.insertionSort (· ≤ ·) l
  (s.getD ((s.length - 1) / 2) 0 + s.getD (s.length / 2) 0) / 2

/-- The per-object diameter estimate (prepare_data.py lines 223-229):
`vals = pd.Series(dist).sort_values()`, then
`vals = vals[:len(vals)-int(len(vals)/5)]` (trim the top 20 percent), then
`vals.median()` (the `*2` radius-to-diameter step is commented out in the
source). -/
def approximateDiameter (dist : List ℚ) : ℚ :=
  let vals := List.insertionSort (· ≤ ·) dist
  let vals := vals.take (vals.length - vals.length / 5)
  medianQ vals

theorem medianQ_const {l : List ℚ} {d : ℚ} (hne : l ≠ [])
    (hall : ∀ x ∈ l, x = d) : medianQ l = d := by
  have hperm := List.perm_insertionSort (· ≤ · : ℚ → ℚ → Prop) l
  have hall' : ∀ x ∈ List.insertionSort (· ≤ ·) l, x = d := fun x hx =>
    hall x (hperm.mem_iff.mp hx)
  have hlen : 0 < (List.insertionSort (· ≤ ·) l).length := by
    rw [List.length_insertionSort]
    exact List.length_pos.mpr hne
  have hget : ∀ i, i < (List.insertionSort (· ≤ ·) l).length →
      (List.insertionSort (· ≤ ·) l).getD i 0 = d := by
    intro i hi
    rw [List.getD_eq_getElem _ _ hi]
    exact hall' _ (List.getElem_mem hi)
  show ((List.insertionSort (· ≤ ·) l).getD
      (((List.insertionSort (· ≤ ·) l).length - 1) / 2) 0 +
    (List.insertionSort (· ≤ ·) l).getD
      ((List.insertionSort (· ≤ ·) l).length / 2) 0) / 2 = d
  rw [hget _ (by omega), hget _ (by omega)]
  ring

/-- Claim C7: the size estimator sorts the distances ascending, removes
exactly the largest `⌊n/5⌋` of the `n` distances (the removed block sits above
every kept distance), reports the median of the remainder, and in particular
returns `d` when every distance equals `d`. -/
theorem c7_trimmed_median_diameter (dist : List ℚ) (h : dist ≠ []) :
    ((List.insertionSort (· ≤ ·) dist).drop
        (dist.length - dist.length / 5)).length = dist.length / 5 ∧
    (((List.insertionSort (· ≤ ·) dist).take (dist.length - dist.length / 5) ++
      (List.insertionSort (· ≤ ·) dist).drop
        (dist.length - dist.length / 5)).Perm dist) ∧
    (∀ x ∈ (List.insertionSort (· ≤ ·) dist).take (dist.length - dist.length / 5),
      ∀ y ∈ (List.insertionSort (· ≤ ·) dist).drop (dist.length - dist.length / 5),
      x ≤ y) ∧
    approximateDiameter dist =
      medianQ ((List.insertionSort (· ≤ ·) dist).take
        (dist.length - dist.length / 5)) ∧
    1 ≤ ((List.insertionSort (· ≤ ·) dist).take
        (dist.length - dist.length / 5)).length ∧
    (∀ d : ℚ, (∀ x ∈ dist, x = d) → approximateDiameter dist = d) := by
  have hlen : (List.insertionSort (· ≤ ·) dist).length = dist.length :=
    List.length_insertionSort _ _
  have hpos : 0 < dist.length := List.length_pos.mpr h
  have hdivlt : dist.length / 5 < dist.length := Nat.div_lt_self hpos (by norm_num)
  have htklen : ((List.insertionSort (· ≤ ·) dist).take
      (dist.length - dist.length / 5)).length = dist.length - dist.length / 5 := by
    rw [List.length_take, hlen]
    omega
  have hunfold : approximateDiameter dist =
      medianQ ((List.insertionSort (· ≤ ·) dist).take
        (dist.length - dist.length / 5)) := by
    show medianQ ((List.insertionSort (· ≤ ·) dist).take
        ((List.insertionSort (· ≤ ·) dist).length -
          (List.insertionSort (· ≤ ·) dist).length / 5)) = _
    rw [hlen]
  refine ⟨?_, ?_, ?_, hunfold, ?_, ?_⟩
  · rw [List.length_drop, hlen]
    omega
  · rw [List.take_append_drop]
    exact List.perm_insertionSort _ _
  · intro x hx y hy
    exact List.Sorted.rel_of_mem_take_of_mem_drop
      (List.sorted_insertionSort _ _) hx hy
  · rw [htklen]
    omega
  · intro d hall
    rw [hunfold]
    refine medianQ_const ?_ ?_
    · intro hnil
      have := htklen
      rw [hnil] at this
      simp at this
      omega
    · intro x hx
      exact hall x ((List.perm_insertionSort (· ≤ · : ℚ → ℚ → Prop) dist).mem_iff.mp
        (List.mem_of_mem_take hx))

/-- Witness for `c7_trimmed_median_diameter` at a concrete distance list. -/
theorem c7_trimmed_median_diameter_witness :
    (([3, 1, 2, 2, 1, 9] : List ℚ) ≠ []) ∧
    approximateDiameter ([3, 1, 2, 2, 1, 9] : List ℚ) =
      medianQ ((List.insertionSort (· ≤ ·) ([3, 1, 2, 2, 1, 9] : List ℚ)).take
        (([3, 1, 2, 2, 1, 9] : List ℚ).length
          - ([3, 1, 2, 2, 1, 9] : List ℚ).length / 5)) :=
  ⟨by simp, (c7_trimmed_median_diameter ([3, 1, 2, 2, 1, 9] : List ℚ)
    (by simp)).2.2.2.1⟩

/-- `max([...counts...])` over the size table (prepare_data.py line 234);
the match avoids Python's `ValueError` on an empty table, which the caller
`writeSizeTable` rules out separately. -/
def maxCountOf (table : List (String × ℚ × ℕ)) : ℕ :=
  match table.map (fun r => r.2.2) with
  | [] => 0
  | h :: t => t.foldl max h

/-- `max([...diameters...])` over the size table (prepare_data.py line 235). -/
def maxDiameterOf (table : List (String × ℚ × ℕ)) : ℚ :=
  match table.map (fun r => r.2.1) with
  | [] => 0
  | h :: t => t.foldl max h

/-- One output row of `object_sizes.csv` (prepare_data.py lines 241-244):
```
diameter = float(dist.split(',')[0]) if float(dist.split(',')[0])>0 else medianDiameter
confidence = (int(dist.split(',')[-1])/maxCount) * (maxDiameter/diameter)
outFile.write(obj+','+str(dist)+','+str(confidence)+'\n')
```
The written line holds the object name, the ORIGINAL diameter-count pair
`dist`, and the confidence.  `none` models the `ZeroDivisionError` of a zero
`diameter` or `maxCount`. -/
def confidenceRow (maxCount : ℕ) (maxDiameter medDiameter : ℚ)
    (r : String × ℚ × ℕ) : Option (String × ℚ × ℕ × ℚ) :=
  if (if 0 < r.2.1 then r.2.1 else medDiameter) = 0 ∨ maxCount = 0 then none
  else some (r.1, r.2.1, r.2.2,
    ((r.2.2 : ℚ) / (maxCount : ℚ)) *
      (maxDiameter / (if 0 < r.2.1 then r.2.1 else medDiameter)))

/-- The `object_sizes.csv` writing loop (prepare_data.py lines 234-245): the
corpus-wide maxima and median are computed from the per-object trimmed-median
table, then one row is emitted per object.  `none` models the `ValueError`
raised by `max([])` on an empty table or a `ZeroDivisionError` in a row. -/
def writeSizeTable (table : List (String × ℚ × ℕ)) :
    Option (List (String × ℚ × ℕ × ℚ)) :=
  if table = [] then none
  else table.mapM (confidenceRow (maxCountOf table) (maxDiameterOf table)
    (medianQ (table.map (fun r => r.2.1))))

theorem mapM_eq_map_of_forall {α β : Type} (f : α → Option β) (g : α → β) :
    ∀ l : List α, (∀ x ∈ l, f x = some (g x)) → l.mapM f = some (l.map g) := by
  intro l
  induction l with
  | nil => intro _; rw [List.mapM_nil]; rfl
  | cons a t ih =>
    intro h
    rw [List.mapM_cons, h a (List.mem_cons_self _ _),
      ih (fun x hx => h x (List.mem_cons_of_mem _ hx))]
    rfl

/-- Claim C8 (amended): for an object whose trimmed-median diameter is `≤ 0`,
the corpus-wide median diameter is substituted ONLY inside the confidence
computation; the size-table row still records the object's original
(unsubstituted) diameter. -/
theorem c8_substitute_only_in_confidence (table : List (String × ℚ × ℕ))
    (obj : String) (d : ℚ) (c : ℕ)
    (hmem : (obj, d, c) ∈ table) (hd : d ≤ 0)
    (hmed : 0 < medianQ (table.map (fun r => r.2.1)))
    (hmc : 0 < maxCountOf table) :
    ∃ rows, writeSizeTable table = some rows ∧
      (obj, d, c, ((c : ℚ) / (maxCountOf table : ℚ)) *
        (maxDiameterOf table / medianQ (table.map (fun r => r.2.1)))) ∈ rows := by
  have hne : table ≠ [] := by
    intro hnil
    rw [hnil] at hmem
    simp at hmem
  have hrow : ∀ r ∈ table,
      confidenceRow (maxCountOf table) (maxDiameterOf table)
        (medianQ (table.map (fun q => q.2.1))) r =
      some (r.1, r.2.1, r.2.2,
        ((r.2.2 : ℚ) / (maxCountOf table : ℚ)) *
          (maxDiameterOf table /
            (if 0 < r.2.1 then r.2.1 else medianQ (table.map (fun q => q.2.1))))) := by
    intro r _
    unfold confidenceRow
    rw [if_neg]
    push_neg
    constructor
    · by_cases h01 : 0 < r.2.1
      · rw [if_pos h01]; exact ne_of_gt h01
      · rw [if_neg h01]; exact ne_of_gt hmed
    · omega
  refine ⟨_, by rw [writeSizeTable, if_neg hne,
    mapM_eq_map_of_forall _ _ table hrow], ?_⟩
  have := List.mem_map_of_mem (fun r : String × ℚ × ℕ =>
    (r.1, r.2.1, r.2.2, ((r.2.2 : ℚ) / (maxCountOf table : ℚ)) *
      (maxDiameterOf table /
        (if 0 < r.2.1 then r.2.1 else medianQ (table.map (fun q => q.2.1))))))
    hmem
  simpa [if_neg (not_lt.mpr hd)] using this

/-- The size table on which the written diameter and the confidence diverge:
object `a` has trimmed-median diameter `0` and object `b` has `2`, so the
corpus-wide median diameter is `1`. -/
def sizeTable0 : List (String × ℚ × ℕ) := [("a", 0, 1), ("b", 2, 1)]

/-- Claim C8 (counterexample): the claim asserts that the substituted
corpus-median diameter is recorded as the object's diameter in the output size
table.  For `sizeTable0` the corpus median is `1` and object `a` has diameter
`0 ≤ 0`, yet its emitted row is `("a", 0, 1, 2)`: the recorded diameter stays
`0` (only the confidence `2 = (1/1)*(2/1)` used the substituted `1`). -/
theorem c8_written_diameter_counterexample :
    medianQ (sizeTable0.map (fun r => r.2.1)) = 1 ∧
    writeSizeTable sizeTable0 = some [("a", 0, 1, 2), ("b", 2, 1, 1)] ∧
    ¬ (0 : ℚ) = 1 := by
  have hsort : List.insertionSort (· ≤ ·) ([(0 : ℚ), 2]) = [0, 2] := by
    norm_num [List.insertionSort, List.orderedInsert]
  have hmed : medianQ (sizeTable0.map (fun r => r.2.1)) = 1 := by
    show medianQ [(0 : ℚ), 2] = 1
    unfold medianQ
    rw [hsort]
    norm_num [List.getD]
  refine ⟨hmed, ?_, by norm_num⟩
  rw [writeSizeTable, if_neg (by simp [sizeTable0])]
  have hmax : maxCountOf sizeTable0 = 1 := by decide
  have hmaxd : maxDiameterOf sizeTable0 = 2 := by
    norm_num [maxDiameterOf, sizeTable0]
  show sizeTable0.mapM (confidenceRow (maxCountOf sizeTable0)
    (maxDiameterOf sizeTable0) (medianQ (sizeTable0.map (fun r => r.2.1)))) = _
  rw [hmax, hmaxd, hmed]
  show List.mapM (confidenceRow 1 2 1) [("a", 0, 1), ("b", 2, 1)] = _
  rw [List.mapM_cons, List.mapM_cons, List.mapM_nil]
  have h1 : confidenceRow 1 2 1 ("a", 0, 1) = some ("a", 0, 1, 2) := by
    unfold confidenceRow
    norm_num
  have h2 : confidenceRow 1 2 1 ("b", 2, 1) = some ("b", 2, 1, 1) := by
    unfold confidenceRow
    norm_num
  rw [h1, h2]
  rfl

/-- Witness for `c8_substitute_only_in_confidence` at `sizeTable0`. -/
theorem c8_substitute_only_in_confidence_witness :
    (("a", (0 : ℚ), 1) ∈ sizeTable0 ∧ (0 : ℚ) ≤ 0 ∧
      0 < medianQ (sizeTable0.map (fun r => r.2.1)) ∧ 0 < maxCountOf sizeTable0) ∧
    ∃ rows, writeSizeTable sizeTable0 = some rows ∧
      ("a", (0 : ℚ), 1, (((1 : ℕ) : ℚ) / ((maxCountOf sizeTable0 : ℕ) : ℚ)) *
        (maxDiameterOf sizeTable0 /
          medianQ (sizeTable0.map (fun r => r.2.1)))) ∈ rows := by
  have hmed : 0 < medianQ (sizeTable0.map (fun r => r.2.1)) := by
    have hsort : List.insertionSort (· ≤ ·) ([(0 : ℚ), 2]) = [0, 2] := by
      norm_num [List.insertionSort, List.orderedInsert]
    show 0 < medianQ [(0 : ℚ), 2]
    unfold medianQ
    rw [hsort]
    norm_num [List.getD]
  exact ⟨⟨by decide, le_refl 0, hmed, by decide⟩,
    c8_substitute_only_in_confidence sizeTable0 "a" 0 1 (by decide) (le_refl 0)
      hmed (by decide)⟩

/-! ## `calculateCoords` (prepare_data.py lines 250-416)

The reconstruction solver.  The relation table is passed in as the function
`dict` (the `dictionary` built on lines 258-282 from either source table);
the `random.shuffle` of line 291 is represented by the `shuffle` argument;
`np.linalg.lstsq` — an external numpy routine, out of the repository — is the
oracle argument `lst` (every claim below holds for an arbitrary `lst`). -/

/-- The failure modes of `calculateCoords`:
* `insufficientData` — `sys.exit(1)` after exhausting all permutations (line 314);
* `valueErr` — Python `max([])` on an empty candidate list (line 325);
* `divByZero` — float division by `b = 0` (line 345);
* `sqrtNeg` — `math.sqrt` of a negative argument (line 346);
* `indexErr` — `[...][0]` on an empty outlier list (line 413) or `triplets[0]`
  of an empty triplet list (line 372);
* `typeErr` — `min` applied to a non-scalar `SCALE` entry (line 414). -/
inductive SolverErr where
  | insufficientData
  | valueErr
  | divByZero
  | sqrtNeg
  | indexErr
  | typeErr
deriving DecidableEq

/-- A value of the `finalCoords` dictionary: a placed 3D point, or the scalar
stored under the `SCALE` pseudo-key. -/
inductive Entry where
  | pt (p : Pt)
  | sc (x : ℝ)

/-- The `finalCoords` dictionary (Python dict, modelled as an association
list updated with `assocStep`). -/
abbrev FinalMap := List (String × Entry)

/-- `','.join(combo)` (prepare_data.py line 300). -/
def keyStr (c : List String) : String := String.intercalate "," c

/-- A relation-table value over `ℝ`, as consumed by the solver: the
`comboData` list `[distanceAB, distanceAC, distanceAO, data[3], data[4],
data[5], count]`, whose last three slots the solver uses as the angles BAC,
OAB and OAC respectively (lines 334-339). -/
structure ComboData where
  dAB : ℝ
  dAC : ℝ
  dAO : ℝ
  aBAC : ℝ
  aOAB : ℝ
  aOAC : ℝ
  count : ℝ

/-- `combos = [[objs[0],objs[1],x] for x in objs[2:]]` (line 297). -/
def candidateCombos (objs : List String) : List (List String) :=
  match objs with
  | a :: b :: rest => rest.map (fun x => [a, b, x])
  | _ => []

/-- The surviving candidate list `good`: combos whose key is present in the
relation table; missing keys are dropped with a warning (lines 299-304). -/
def goodOf (objs : List String) (dict : String → Option ComboData) :
    List (List String) :=
  (candidateCombos objs).filter (fun c => (dict (keyStr c)).isSome)

/-- The coverage check of lines 306-310: every requested object must occur
somewhere in the flattened surviving-combo list. -/
def covers (objects : List String) (good : List (List String)) : Bool :=
  objects.all (fun o => good.flatten.contains o)

/-- The retry loop of lines 293-312: try the shuffled permutations in order,
return the surviving combos of the first permutation that covers every
requested object, `none` when all attempts fail. -/
def findGood (objects : List String) (objMix : List (List String))
    (dict : String → Option ComboData) : Option (List (List String)) :=
  match objMix with
  | [] => none
  | objs :: rest =>
    if covers objects (goodOf objs dict) then some (goodOf objs dict)
    else findGood objects rest dict

/-- Python `max(list)`: `ValueError` on an empty list (line 325). -/
def pyMax (l : List ℝ) : Except SolverErr ℝ :=
  match l with
  | [] => .error .valueErr
  | h :: t => .ok (t.foldl max h)

/-- Relation-table access `dictionary[','.join(combo)]` for a surviving
combo; `goodOf` guarantees the key is present, so the default value is
unreachable. -/
def getData (dict : String → Option ComboData) (c : List String) : ComboData :=
  (dict (keyStr c)).getD ⟨0, 0, 0, 0, 0, 0, 0⟩

/-- A reconstructed local triplet `[objA,objB,objC,A,B,C,O,s]` (line 359). -/
structure LocalTrip where
  objA : String
  objB : String
  objC : String
  A : Pt
  B : Pt
  C : Pt
  O : Pt
  s : ℝ

/-- `a = d_ac*math.cos(aBAC)` (line 342). -/
noncomputable def aVal (data : ComboData) : ℝ :=
  data.dAC * Real.cos (radians data.aBAC)

/-- `b = d_ac*math.sin(aBAC)` (line 343). -/
noncomputable def bVal (data : ComboData) : ℝ :=
  data.dAC * Real.sin (radians data.aBAC)

/-- `x = d_ao*math.cos(aOAB)` (line 344). -/
noncomputable def xVal (data : ComboData) : ℝ :=
  data.dAO * Real.cos (radians data.aOAB)

/-- `y = (d_ac*d_ao*math.cos(aOAC) - a*x) / b` (line 345). -/
noncomputable def yVal (data : ComboData) : ℝ :=
  (data.dAC * data.dAO * Real.cos (radians data.aOAC) - aVal data * xVal data) /
    bVal data

/-- The argument of the `math.sqrt` of line 346. -/
noncomputable def zArg (data : ComboData) : ℝ :=
  data.dAO ^ 2 - xVal data ^ 2 - yVal data ^ 2

/-- `B = [d_ab,0,0]` (line 350). -/
noncomputable def tripB (d_ab : ℝ) : Pt := (d_ab, 0, 0)

/-- `C = [a,b,0]` (line 351). -/
noncomputable def tripC (data : ComboData) : Pt := (aVal data, bVal data, 0)

/-- `O = [x,y,z]` with `z = math.sqrt(d_ao**2 - x**2 - y**2)`
(lines 346, 352). -/
noncomputable def tripO (data : ComboData) : Pt :=
  (xVal data, yVal data, Real.sqrt (zArg data))

/-- `s = min([d_ab,d_ac,d_bc,d_ao,d_bo,d_co])` (lines 355-358), where the
three missing pairwise distances are computed by the explicit
square-root-of-sum-of-squares formula. -/
noncomputable def scaleOf (d_ab : ℝ) (data : ComboData) : ℝ :=
  List.foldl min d_ab
    [data.dAC, dist3 (tripB d_ab) (tripC data), data.dAO,
     dist3 (tripB d_ab) (tripO data), dist3 (tripC data) (tripO data)]

open Classical in
/-- Lines 328-359: build one local triplet.  The first error models the
`ZeroDivisionError` of `y`'s division by `b = 0`, the second the `ValueError`
of `math.sqrt` on a negative argument. -/
noncomputable def setupOne (dict : String → Option ComboData) (d_ab : ℝ)
    (combo : List String) : Except SolverErr LocalTrip :=
  if bVal (getData dict combo) = 0 then .error .divByZero
  else if zArg (getData dict combo) < 0 then .error .sqrtNeg
  else .ok
    { objA := combo.getD 0 "", objB := combo.getD 1 "", objC := combo.getD 2 ""
      A := (0, 0, 0), B := tripB d_ab, C := tripC (getData dict combo)
      O := tripO (getData dict combo), s := scaleOf d_ab (getData dict combo) }

/-- `pad` (line 392): append the homogeneous coordinate 1. -/
noncomputable def pad4 (p : Pt) : List ℝ := [p.1, p.2.1, p.2.2, 1]

/-- Row-vector times matrix: `np.dot(pad(x), A)` for one point row. -/
noncomputable def vecMat (v : List ℝ) (M : List (List ℝ)) : List ℝ :=
  (List.range 4).map (fun j => ((v.zip M).map (fun p => p.1 * p.2.getD j 0)).sum)

/-- `unpad` (line 393): drop the homogeneous coordinate. -/
noncomputable def unpad (l : List ℝ) : Pt := (l.getD 0 0, l.getD 1 0, l.getD 2 0)

/-- The 4-point reference frame of a triplet: `[A, B, O]` plus their centroid
(lines 372-375 and 385-388). -/
noncomputable def frame4 (t : LocalTrip) : List Pt :=
  [t.A, t.B, t.O,
   ((t.A.1 + t.B.1 + t.O.1) / 3, (t.A.2.1 + t.B.2.1 + t.O.2.1) / 3,
    (t.A.2.2 + t.B.2.2 + t.O.2.2) / 3)]

/-- The proximity test `isNear` of line 406:
`sum((x1 - x2)**2 for ...) < 0.0001`. -/
def isNear (p q : Pt) : Prop :=
  (p.1 - q.1) ^ 2 + (p.2.1 - q.2.1) ^ 2 + (p.2.2 - q.2.2) ^ 2 < 1 / 10000

open Classical in
/-- One iteration of the merge loop (lines 384-414) for triplet `t`: fit the
affine transform from `t`'s padded 4-point frame onto the padded base frame
(`np.linalg.lstsq`, the oracle `lst`), transform the frame plus `t`'s C
point, collect transformed points near a base point (`corresp`), take the
first remaining point as C's global position (line 413; `IndexError` when
none remains), store it under `objC`, and fold `t`'s scale into `SCALE`
(line 414; `TypeError` when that entry is not a scalar). -/
noncomputable def mergeStep
    (lst : List (List ℝ) → List (List ℝ) → List (List ℝ)) (base : List Pt)
    (fc : FinalMap) (t : LocalTrip) : Except SolverErr FinalMap :=
  let pts := frame4 t
  let M := lst (pts.map pad4) (base.map pad4)
  let coordsNew := (pts ++ [t.C]).map (fun p => unpad (vecMat (pad4 p) M))
  let corresp := coordsNew.filter (fun p => base.any (fun q => isNear p q))
  match coordsNew.filter (fun p => ¬ p ∈ corresp) with
  | [] => .error .indexErr
  | o :: _ =>
    let fc1 := assocStep t.objC (fun _ => Entry.pt o) fc
    match lookupA fc1 "SCALE" with
    | some (Entry.sc v) =>
      .ok (assocStep "SCALE" (fun _ => Entry.sc (min t.s v)) fc1)
    | _ => .error .typeErr

/-- Lines 361-416: seed `finalCoords` from the first triplet (lines 376-382)
and merge every further triplet into it. -/
noncomputable def mergeTriplets
    (lst : List (List ℝ) → List (List ℝ) → List (List ℝ))
    (trips : List LocalTrip) : Except SolverErr FinalMap :=
  match trips with
  | [] => .error .indexErr
  | t0 :: rest =>
    let fc0 : FinalMap :=
      assocStep "SCALE" (fun _ => Entry.sc t0.s)
        (assocStep "CAMERA" (fun _ => Entry.pt t0.O)
          (assocStep t0.objC (fun _ => Entry.pt t0.C)
            (assocStep t0.objB (fun _ => Entry.pt t0.B)
              (assocStep t0.objA (fun _ => Entry.pt t0.A) []))))
    rest.foldlM (mergeStep lst (frame4 t0)) fc0

/-- Lines 319-359 after a successful search: load the object size table
(line 319 — the result is bound and never used), fix the universal anchor
distance `d_ab` as the maximum surviving `distanceAB` (lines 322-325), set up
every local triplet, and merge. -/
noncomputable def mergeFrom (good : List (List String))
    (dict : String → Option ComboData) (sizesFile : List (String × ℚ))
    (lst : List (List ℝ) → List (List ℝ) → List (List ℝ)) :
    Except SolverErr FinalMap := do
  let _sizes := sizesFile
  let d_ab ← pyMax (good.map (fun c => (getData dict c).dAB))
  let trips ← good.mapM (setupOne dict d_ab)
  mergeTriplets lst trips

/-- `calculateCoords` (lines 250-416) given an already-built relation table:
enumerate all permutations of the requested objects, shuffle them, search for
a covering candidate set (lines 288-316; failure is `sys.exit(1)`), and
reconstruct from the surviving triplets of the first covering permutation. -/
noncomputable def calculateCoords (objects : List String)
    (dict : String → Option ComboData)
    (shuffle : List (List String) → List (List String))
    (sizesFile : List (String × ℚ))
    (lst : List (List ℝ) → List (List ℝ) → List (List ℝ)) :
    Except SolverErr FinalMap :=
  match findGood objects (shuffle objects.permutations) dict with
  | none => .error .insufficientData
  | some good => mergeFrom good dict sizesFile lst

/-- Claim C10: the reconstruction result does not depend on the object size
table.  `calculateCoords` binds `sizes = loadObjectSizes()` (line 319) and
never uses it, so two runs with the same objects, relation table, shuffle
outcome and least-squares oracle but arbitrary size-table contents return
identical coordinate assignments (including `CAMERA` and `SCALE`), and fail
identically. -/
theorem c10_sizes_independent (objects : List String)
    (dict : String → Option ComboData)
    (shuffle : List (List String) → List (List String))
    (lst : List (List ℝ) → List (List ℝ) → List (List ℝ))
    (sizes1 sizes2 : List (String × ℚ)) :
    calculateCoords objects dict shuffle sizes1 lst =
      calculateCoords objects dict shuffle sizes2 lst := rfl

/-! ## Claim C6: the permutation search -/

theorem findGood_cons (objects : List String) (p : List String)
    (rest : List (List String)) (dict : String → Option ComboData) :
    findGood objects (p :: rest) dict =
      if covers objects (goodOf p dict) then some (goodOf p dict)
      else findGood objects rest dict := by
  conv_lhs => rw [findGood]

theorem findGood_eq_none_iff (objects : List String)
    (dict : String → Option ComboData) :
    ∀ objMix : List (List String),
      (findGood objects objMix dict = none ↔
        ∀ perm ∈ objMix, covers objects (goodOf perm dict) = false) := by
  intro objMix
  induction objMix with
  | nil => simp [findGood]
  | cons p rest ih =>
    rw [findGood_cons]
    by_cases h : covers objects (goodOf p dict) = true
    · simp [h]
    · have hf : covers objects (goodOf p dict) = false :=
        Bool.eq_false_iff.mpr h
      rw [if_neg h, ih]
      constructor
      · intro hall perm hp
        rcases List.mem_cons.mp hp with rfl | hp'
        · exact hf
        · exact hall perm hp'
      · intro hall perm hp
        exact hall perm (List.mem_cons_of_mem _ hp)

theorem findGood_eq_some (objects : List String)
    (dict : String → Option ComboData) :
    ∀ (objMix : List (List String)) (g : List (List String)),
      findGood objects objMix dict = some g →
      ∃ perm ∈ objMix, covers objects (goodOf perm dict) = true ∧
        g = goodOf perm dict := by
  intro objMix
  induction objMix with
  | nil => intro g h; simp [findGood] at h
  | cons p rest ih =>
    intro g h
    rw [findGood_cons] at h
    by_cases hc : covers objects (goodOf p dict) = true
    · rw [if_pos hc] at h
      exact ⟨p, List.mem_cons_self _ _, hc, (Option.some.inj h).symm⟩
    · rw [if_neg hc] at h
      obtain ⟨perm, hpm, hcov, hg⟩ := ih g h
      exact ⟨perm, List.mem_cons_of_mem _ hpm, hcov, hg⟩

theorem pyMax_error {l : List ℝ} {e : SolverErr} (h : pyMax l = .error e) :
    e = .valueErr := by
  cases l with
  | nil => exact (Except.error.inj h).symm
  | cons a t => exact Except.noConfusion h

theorem setupOne_error {dict : String → Option ComboData} {d_ab : ℝ}
    {combo : List String} {e : SolverErr}
    (h : setupOne dict d_ab combo = .error e) :
    e = .divByZero ∨ e = .sqrtNeg := by
  unfold setupOne at h
  split at h
  · exact Or.inl (Except.error.inj h).symm
  · split at h
    · exact Or.inr (Except.error.inj h).symm
    · exact Except.noConfusion h

theorem mapM_except_error {α β : Type} {ε : Type} {f : α → Except ε β}
    {P : ε → Prop} (hf : ∀ x e, f x = .error e → P e) :
    ∀ (l : List α) (e : ε), l.mapM f = .error e → P e := by
  intro l
  induction l with
  | nil => intro e h; rw [List.mapM_nil] at h; exact Except.noConfusion h
  | cons a t ih =>
    intro e h
    rw [List.mapM_cons] at h
    cases ha : f a with
    | error e' =>
      rw [ha] at h
      exact (Except.error.inj h : e' = e) ▸ hf a e' ha
    | ok y =>
      rw [ha] at h
      cases ht : t.mapM f with
      | error e' =>
        rw [ht] at h
        exact (Except.error.inj h : e' = e) ▸ ih e' ht
      | ok ys =>
        rw [ht] at h
        exact Except.noConfusion h

theorem mergeStep_error
    {lst : List (List ℝ) → List (List ℝ) → List (List ℝ)} {base : List Pt}
    {fc : FinalMap} {t : LocalTrip} {e : SolverErr}
    (h : mergeStep lst base fc t = .error e) :
    e = .indexErr ∨ e = .typeErr := by
  unfold mergeStep at h
  dsimp only [] at h
  split at h
  · exact Or.inl (Except.error.inj h).symm
  · split at h
    · exact Except.noConfusion h
    · exact Or.inr (Except.error.inj h).symm

theorem foldlM_mergeStep_error
    {lst : List (List ℝ) → List (List ℝ) → List (List ℝ)} {base : List Pt} :
    ∀ (rest : List LocalTrip) (fc : FinalMap) (e : SolverErr),
      rest.foldlM (mergeStep lst base) fc = .error e →
      e = .indexErr ∨ e = .typeErr := by
  intro rest
  induction rest with
  | nil => intro fc e h; exact Except.noConfusion h
  | cons t ts ih =>
    intro fc e h
    rw [List.foldlM_cons] at h
    cases hm : mergeStep lst base fc t with
    | error e' =>
      rw [hm] at h
      exact (Except.error.inj h : e' = e) ▸ mergeStep_error hm
    | ok fc' =>
      rw [hm] at h
      exact ih fc' e h

theorem mergeTriplets_error
    {lst : List (List ℝ) → List (List ℝ) → List (List ℝ)}
    {trips : List LocalTrip} {e : SolverErr}
    (h : mergeTriplets lst trips = .error e) :
    e = .indexErr ∨ e = .typeErr := by
  cases trips with
  | nil => exact Or.inl (Except.error.inj h).symm
  | cons t0 rest => exact foldlM_mergeStep_error rest _ e h

theorem mergeFrom_ne_insufficient (good : List (List String))
    (dict : String → Option ComboData) (sizesFile : List (String × ℚ))
    (lst : List (List ℝ) → List (List ℝ) → List (List ℝ)) :
    mergeFrom good dict sizesFile lst ≠ .error .insufficientData := by
  intro h
  unfold mergeFrom at h
  cases hp : pyMax (good.map (fun c => (getData dict c).dAB)) with
  | error e =>
    rw [hp] at h
    have he : e = SolverErr.insufficientData := Except.error.inj h
    rw [he] at hp
    exact absurd (pyMax_error hp) (by simp)
  | ok d_ab =>
    rw [hp] at h
    have h2 : (good.mapM (setupOne dict d_ab) >>=
        fun trips => mergeTriplets lst trips) =
        Except.error SolverErr.insufficientData := h
    cases hm : good.mapM (setupOne dict d_ab) with
    | error e =>
      rw [hm] at h2
      have he : e = SolverErr.insufficientData := Except.error.inj h2
      rw [he] at hm
      rcases mapM_except_error (fun _ _ hx => setupOne_error hx) good _ hm with
        h1 | h1 <;> simp at h1
    | ok trips =>
      rw [hm] at h2
      rcases mergeTriplets_error h2 with h1 | h1 <;> simp at h1

/-- Claim C6: when no permutation of the requested objects yields a covering
surviving-triplet set, the solver terminates fatally (`sys.exit(1)`, a
non-zero outcome, modelled `.error .insufficientData` — the `Except` result
carries no partial assignment); and when the search succeeds, the solver
proceeds with exactly the surviving triplets of the first covering
permutation of the shuffled list. -/
theorem c6_insufficient_data_fatal (objects : List String)
    (dict : String → Option ComboData)
    (shuffle : List (List String) → List (List String))
    (sizesFile : List (String × ℚ))
    (lst : List (List ℝ) → List (List ℝ) → List (List ℝ))
    (hs : (shuffle objects.permutations).Perm objects.permutations) :
    (calculateCoords objects dict shuffle sizesFile lst =
        .error .insufficientData ↔
      ∀ perm, perm.Perm objects → covers objects (goodOf perm dict) = false) ∧
    (∀ g, findGood objects (shuffle objects.permutations) dict = some g →
      (∃ perm, perm.Perm objects ∧ covers objects (goodOf perm dict) = true ∧
        g = goodOf perm dict) ∧
      calculateCoords objects dict shuffle sizesFile lst =
        mergeFrom g dict sizesFile lst) := by
  have hmem : ∀ perm : List String,
      perm ∈ shuffle objects.permutations ↔ perm.Perm objects := fun perm =>
    hs.mem_iff.trans List.mem_permutations
  constructor
  · constructor
    · intro h
      cases hf : findGood objects (shuffle objects.permutations) dict with
      | none =>
        intro perm hp
        exact (findGood_eq_none_iff objects dict _).mp hf perm
          ((hmem perm).mpr hp)
      | some g =>
        unfold calculateCoords at h
        rw [hf] at h
        exact absurd h (mergeFrom_ne_insufficient g dict sizesFile lst)
    · intro hall
      have hnone : findGood objects (shuffle objects.permutations) dict = none :=
        (findGood_eq_none_iff objects dict _).mpr
          (fun perm hp => hall perm ((hmem perm).mp hp))
      unfold calculateCoords
      rw [hnone]
  · intro g hg
    obtain ⟨perm, hpm, hcov, hgeq⟩ := findGood_eq_some objects dict _ g hg
    refine ⟨⟨perm, (hmem perm).mp hpm, hcov, hgeq⟩, ?_⟩
    unfold calculateCoords
    rw [hg]

/-- The empty relation table: every key is missing. -/
def dictNone : String → Option ComboData := fun _ => none

/-- Witness for `c6_insufficient_data_fatal`: with an empty relation table no
permutation of `["a","b","c"]` has a covering candidate set, so the solver
exits fatally. -/
theorem c6_insufficient_data_fatal_witness :
    (id (["a", "b", "c"] : List String).permutations).Perm
      (["a", "b", "c"] : List String).permutations ∧
    calculateCoords ["a", "b", "c"] dictNone id []
      (fun _ _ => ([] : List (List ℝ))) = .error .insufficientData := by
  refine ⟨List.Perm.refl _, ?_⟩
  refine (c6_insufficient_data_fatal ["a", "b", "c"] dictNone id []
    (fun _ _ => ([] : List (List ℝ))) (List.Perm.refl _)).1.mpr ?_
  intro perm _
  have hg : goodOf perm dictNone = [] := by
    simp [goodOf, dictNone]
  rw [hg]
  rfl

/-! ## Claim C5: scale factors -/

theorem foldl_min_mem :
    ∀ (l : List ℝ) (x : ℝ),
      l.foldl min x ∈ x :: l ∧ ∀ y ∈ x :: l, l.foldl min x ≤ y := by
  intro l
  induction l with
  | nil => intro x; simp
  | cons a t ih =>
    intro x
    rw [List.foldl_cons]
    obtain ⟨hmem, hle⟩ := ih (min x a)
    constructor
    · rcases List.mem_cons.mp hmem with heq | hmem'
      · rcases min_choice x a with hc | hc
        · rw [heq, hc]; exact List.mem_cons_self _ _
        · rw [heq, hc]
          exact List.mem_cons_of_mem _ (List.mem_cons_self _ _)
      · exact List.mem_cons_of_mem _ (List.mem_cons_of_mem _ hmem')
    · intro y hy
      rcases List.mem_cons.mp hy with rfl | hy'
      · exact le_trans (hle _ (List.mem_cons_self _ _)) (min_le_left _ _)
      · rcases List.mem_cons.mp hy' with rfl | hy''
        · exact le_trans (hle _ (List.mem_cons_self _ _)) (min_le_right _ _)
        · exact hle _ (List.mem_cons_of_mem _ hy'')

theorem foldl_min_comm :
    ∀ (l : List ℝ) (v : ℝ),
      l.foldl (fun acc x => min x acc) v = l.foldl min v := by
  intro l
  induction l with
  | nil => intro v; rfl
  | cons a t ih =>
    intro v
    rw [List.foldl_cons, List.foldl_cons, min_comm, ih]

theorem foldl_max_nonneg :
    ∀ (l : List ℝ) (x : ℝ), 0 ≤ x → (∀ y ∈ l, 0 ≤ y) → 0 ≤ l.foldl max x := by
  intro l
  induction l with
  | nil => intro x hx _; exact hx
  | cons a t ih =>
    intro x hx hall
    rw [List.foldl_cons]
    exact ih (max x a) (le_trans hx (le_max_left _ _))
      (fun y hy => hall y (List.mem_cons_of_mem _ hy))

theorem pyMax_nonneg {l : List ℝ} {v : ℝ} (h : pyMax l = .ok v)
    (hall : ∀ x ∈ l, 0 ≤ x) : 0 ≤ v := by
  cases l with
  | nil => exact Except.noConfusion h
  | cons a t =>
    rw [← Except.ok.inj h]
    exact foldl_max_nonneg t a (hall a (List.mem_cons_self _ _))
      (fun y hy => hall y (List.mem_cons_of_mem _ hy))

theorem getData_nonneg {dict : String → Option ComboData}
    (hd : ∀ k data, dict k = some data →
      0 ≤ data.dAB ∧ 0 ≤ data.dAC ∧ 0 ≤ data.dAO) (c : List String) :
    0 ≤ (getData dict c).dAB ∧ 0 ≤ (getData dict c).dAC ∧
      0 ≤ (getData dict c).dAO := by
  unfold getData
  cases hdc : dict (keyStr c) with
  | none => simp
  | some data =>
    simp only [Option.getD_some]
    exact hd _ _ hdc

theorem dist3_origin_tripB {d_ab : ℝ} (h : 0 ≤ d_ab) :
    dist3 (0, 0, 0) (tripB d_ab) = d_ab := by
  simp only [dist3, norm3, vsub, tripB]
  rw [show ((0 : ℝ) - d_ab) ^ 2 + ((0 : ℝ) - 0) ^ 2 + ((0 : ℝ) - 0) ^ 2 = d_ab ^ 2
    from by ring]
  exact Real.sqrt_sq h

theorem dist3_origin_tripC {data : ComboData} (h : 0 ≤ data.dAC) :
    dist3 (0, 0, 0) (tripC data) = data.dAC := by
  simp only [dist3, norm3, vsub, tripC]
  rw [show ((0 : ℝ) - aVal data) ^ 2 + ((0 : ℝ) - bVal data) ^ 2 +
      ((0 : ℝ) - 0) ^ 2 = data.dAC ^ 2 from by
    unfold aVal bVal
    nlinarith [Real.sin_sq_add_cos_sq (radians data.aBAC)]]
  exact Real.sqrt_sq h

theorem dist3_origin_tripO {data : ComboData} (h : 0 ≤ data.dAO)
    (hz : 0 ≤ zArg data) :
    dist3 (0, 0, 0) (tripO data) = data.dAO := by
  simp only [dist3, norm3, vsub, tripO]
  rw [show ((0 : ℝ) - xVal data) ^ 2 + ((0 : ℝ) - yVal data) ^ 2 +
      ((0 : ℝ) - Real.sqrt (zArg data)) ^ 2 = data.dAO ^ 2 from by
    have hs := Real.sq_sqrt hz
    unfold zArg at hs ⊢
    nlinarith [hs]]
  exact Real.sqrt_sq h

/-- A successfully set-up triplet's scale factor is the least of the six
pairwise distances among its stored points, and is one of them. -/
theorem setupOne_scale {dict : String → Option ComboData} {d_ab : ℝ}
    {combo : List String} {t : LocalTrip}
    (h : setupOne dict d_ab combo = .ok t) (hdab : 0 ≤ d_ab)
    (hac : 0 ≤ (getData dict combo).dAC) (hao : 0 ≤ (getData dict combo).dAO) :
    t.s ∈ [dist3 t.A t.B, dist3 t.A t.C, dist3 t.B t.C,
           dist3 t.A t.O, dist3 t.B t.O, dist3 t.C t.O] ∧
    ∀ dd ∈ [dist3 t.A t.B, dist3 t.A t.C, dist3 t.B t.C,
            dist3 t.A t.O, dist3 t.B t.O, dist3 t.C t.O], t.s ≤ dd := by
  unfold setupOne at h
  split at h
  · exact Except.noConfusion h
  · split at h
    · exact Except.noConfusion h
    · rename_i hblocker hzneg
      have hz : 0 ≤ zArg (getData dict combo) := not_lt.mp hzneg
      rw [← Except.ok.inj h]
      dsimp only
      rw [dist3_origin_tripB hdab, dist3_origin_tripC hac,
        dist3_origin_tripO hao hz]
      unfold scaleOf
      exact foldl_min_mem _ d_ab

theorem mapM_except_mem {α β ε : Type} (f : α → Except ε β) :
    ∀ (l : List α) (ys : List β), l.mapM f = .ok ys →
      ∀ y ∈ ys, ∃ x ∈ l, f x = .ok y := by
  intro l
  induction l with
  | nil =>
    intro ys h y hy
    rw [List.mapM_nil] at h
    rw [← Except.ok.inj h] at hy
    simp at hy
  | cons a t ih =>
    intro ys h y hy
    rw [List.mapM_cons] at h
    cases ha : f a with
    | error e => rw [ha] at h; exact Except.noConfusion h
    | ok y0 =>
      rw [ha] at h
      cases ht : t.mapM f with
      | error e => rw [ht] at h; exact Except.noConfusion h
      | ok ys' =>
        rw [ht] at h
        rw [← Except.ok.inj h] at hy
        rcases List.mem_cons.mp hy with rfl | hy'
        · exact ⟨a, List.mem_cons_self _ _, ha⟩
        · obtain ⟨x, hx, hfx⟩ := ih ys' ht y hy'
          exact ⟨x, List.mem_cons_of_mem _ hx, hfx⟩

/-- Merging one triplet updates the `SCALE` entry to the minimum of the
triplet's scale and the previous value. -/
theorem mergeStep_scale
    {lst : List (List ℝ) → List (List ℝ) → List (List ℝ)} {base : List Pt}
    {fc fc' : FinalMap} {t : LocalTrip}
    (h : mergeStep lst base fc t = .ok fc') {v : ℝ}
    (hv : lookupA fc "SCALE" = some (Entry.sc v)) :
    lookupA fc' "SCALE" = some (Entry.sc (min t.s v)) := by
  unfold mergeStep at h
  dsimp only [] at h
  split at h
  · exact Except.noConfusion h
  · rename_i o tail hout
    split at h
    · rename_i w hw
      by_cases hko : t.objC = "SCALE"
      · rw [hko] at hw
        rw [lookupA_assocStep_self] at hw
        exact Entry.noConfusion (Option.some.inj hw)
      · rw [lookupA_assocStep_ne hko] at hw
        rw [hv] at hw
        have hwv : Entry.sc v = Entry.sc w := Option.some.inj hw
        have : v = w := by
          cases hwv
          rfl
        subst this
        rw [← Except.ok.inj h]
        exact lookupA_assocStep_self _ _ _
    · exact Except.noConfusion h

theorem foldlM_scale
    {lst : List (List ℝ) → List (List ℝ) → List (List ℝ)} {base : List Pt} :
    ∀ (rest : List LocalTrip) (fc : FinalMap) (v : ℝ) (fc' : FinalMap),
      lookupA fc "SCALE" = some (Entry.sc v) →
      rest.foldlM (mergeStep lst base) fc = .ok fc' →
      lookupA fc' "SCALE" =
        some (Entry.sc (rest.foldl (fun acc t => min t.s acc) v)) := by
  intro rest
  induction rest with
  | nil =>
    intro fc v fc' hv h
    rw [← Except.ok.inj h]
    exact hv
  | cons t ts ih =>
    intro fc v fc' hv h
    rw [List.foldlM_cons] at h
    cases hm : mergeStep lst base fc t with
    | error e => rw [hm] at h; exact Except.noConfusion h
    | ok fc1 =>
      rw [hm] at h
      exact ih fc1 (min t.s v) fc' (mergeStep_scale hm hv) h

/-- A successful merge starts from the first triplet's scale and folds `min`
over the rest. -/
theorem mergeTriplets_scale
    {lst : List (List ℝ) → List (List ℝ) → List (List ℝ)}
    {trips : List LocalTrip} {fc : FinalMap}
    (h : mergeTriplets lst trips = .ok fc) :
    ∃ t0 rest, trips = t0 :: rest ∧
      lookupA fc "SCALE" =
        some (Entry.sc (rest.foldl (fun acc t => min t.s acc) t0.s)) := by
  cases trips with
  | nil => exact Except.noConfusion h
  | cons t0 rest =>
    refine ⟨t0, rest, rfl, ?_⟩
    exact foldlM_scale rest _ t0.s fc (lookupA_assocStep_self _ _ _) h

/-- Claim C5: in every successful reconstruction over a relation table with
nonnegative distances (a spec invariant of `TripletRecord`), each merged
triplet's local scale factor is the minimum of the six pairwise distances
among its points `{A,B,C,O}`, and the `SCALE` entry of the returned
assignment is the minimum of the local scale factors over all merged
triplets. -/
theorem c5_scale_min_pairwise (objects : List String)
    (dict : String → Option ComboData)
    (shuffle : List (List String) → List (List String))
    (sizesFile : List (String × ℚ))
    (lst : List (List ℝ) → List (List ℝ) → List (List ℝ)) (fc : FinalMap)
    (hok : calculateCoords objects dict shuffle sizesFile lst = .ok fc)
    (hd : ∀ k data, dict k = some data →
      0 ≤ data.dAB ∧ 0 ≤ data.dAC ∧ 0 ≤ data.dAO) :
    ∃ good d_ab trips,
      findGood objects (shuffle objects.permutations) dict = some good ∧
      pyMax (good.map (fun c => (getData dict c).dAB)) = .ok d_ab ∧
      good.mapM (setupOne dict d_ab) = .ok trips ∧
      (∀ t ∈ trips,
        t.s ∈ [dist3 t.A t.B, dist3 t.A t.C, dist3 t.B t.C,
               dist3 t.A t.O, dist3 t.B t.O, dist3 t.C t.O] ∧
        ∀ dd ∈ [dist3 t.A t.B, dist3 t.A t.C, dist3 t.B t.C,
                dist3 t.A t.O, dist3 t.B t.O, dist3 t.C t.O], t.s ≤ dd) ∧
      (∃ sMin, lookupA fc "SCALE" = some (Entry.sc sMin) ∧
        sMin ∈ trips.map LocalTrip.s ∧
        ∀ v ∈ trips.map LocalTrip.s, sMin ≤ v) := by
  unfold calculateCoords at hok
  cases hf : findGood objects (shuffle objects.permutations) dict with
  | none => rw [hf] at hok; exact Except.noConfusion hok
  | some good =>
    rw [hf] at hok
    have hok1 : (pyMax (good.map (fun c => (getData dict c).dAB)) >>=
        fun d_ab => good.mapM (setupOne dict d_ab) >>=
          fun trips => mergeTriplets lst trips) = .ok fc := hok
    cases hp : pyMax (good.map (fun c => (getData dict c).dAB)) with
    | error e => rw [hp] at hok1; exact Except.noConfusion hok1
    | ok d_ab =>
      rw [hp] at hok1
      have hok2 : (good.mapM (setupOne dict d_ab) >>=
          fun trips => mergeTriplets lst trips) = .ok fc := hok1
      cases hm : good.mapM (setupOne dict d_ab) with
      | error e => rw [hm] at hok2; exact Except.noConfusion hok2
      | ok trips =>
        rw [hm] at hok2
        have hmt : mergeTriplets lst trips = .ok fc := hok2
        have hdab : 0 ≤ d_ab := pyMax_nonneg hp (by
          intro x hx
          obtain ⟨c, _, rfl⟩ := List.mem_map.mp hx
          exact (getData_nonneg hd c).1)
        refine ⟨good, d_ab, trips, rfl, hp, hm, ?_, ?_⟩
        · intro t ht
          obtain ⟨c, _, hset⟩ := mapM_except_mem _ good trips hm t ht
          exact setupOne_scale hset hdab (getData_nonneg hd c).2.1
            (getData_nonneg hd c).2.2
        · obtain ⟨t0, rest, rfl, hsc⟩ := mergeTriplets_scale hmt
          refine ⟨_, hsc, ?_, ?_⟩
          · rw [show rest.foldl (fun acc t => min t.s acc) t0.s =
                ((rest.map LocalTrip.s).foldl min t0.s) from by
              rw [← foldl_min_comm, List.foldl_map]]
            exact (foldl_min_mem (rest.map LocalTrip.s) t0.s).1
          · rw [show rest.foldl (fun acc t => min t.s acc) t0.s =
                ((rest.map LocalTrip.s).foldl min t0.s) from by
              rw [← foldl_min_comm, List.foldl_map]]
            exact (foldl_min_mem (rest.map LocalTrip.s) t0.s).2

/-! ### Witness data for claim C5: a three-object reconstruction whose single
triplet has unit distances and right angles, so the merge loop body never
runs and the whole pipeline evaluates symbolically. -/

/-- The witness relation table: one triplet `a,b,c` with unit distances and
90-degree angles. -/
noncomputable def dictW : String → Option ComboData := fun k =>
  if k = "a,b,c" then some ⟨1, 1, 1, 90, 90, 90, 1⟩ else none

/-- The witness table's single entry. -/
noncomputable def dataW : ComboData := ⟨1, 1, 1, 90, 90, 90, 1⟩

/-- A shuffle outcome that tries the identity permutation first. -/
def shuffleW : List (List String) → List (List String) :=
  fun _ => [["a", "b", "c"]]

/-- A trivial least-squares oracle (never consulted: one triplet only). -/
def lstW : List (List ℝ) → List (List ℝ) → List (List ℝ) := fun _ _ => []

/-- The single local triplet the witness reconstruction builds. -/
noncomputable def tripW : LocalTrip :=
  { objA := "a", objB := "b", objC := "c", A := (0, 0, 0), B := (1, 0, 0),
    C := (0, 1, 0), O := (0, 0, 1), s := 1 }

/-- The witness reconstruction's final coordinate assignment. -/
noncomputable def fcW : FinalMap :=
  [("a", Entry.pt (0, 0, 0)), ("b", Entry.pt (1, 0, 0)),
   ("c", Entry.pt (0, 1, 0)), ("CAMERA", Entry.pt (0, 0, 1)),
   ("SCALE", Entry.sc 1)]

theorem setupOne_dictW : setupOne dictW 1 ["a", "b", "c"] = .ok tripW := by
  have hrad : radians 90 = Real.pi / 2 := by unfold radians; ring
  have hcos : Real.cos (radians (90 : ℝ)) = 0 := by
    rw [hrad, Real.cos_pi_div_two]
  have hsin : Real.sin (radians (90 : ℝ)) = 1 := by
    rw [hrad, Real.sin_pi_div_two]
  have ha : aVal dataW = 0 := by
    show (1 : ℝ) * Real.cos (radians 90) = 0
    rw [hcos]; ring
  have hb : bVal dataW = 1 := by
    show (1 : ℝ) * Real.sin (radians 90) = 1
    rw [hsin]; ring
  have hx : xVal dataW = 0 := by
    show (1 : ℝ) * Real.cos (radians 90) = 0
    rw [hcos]; ring
  have hy : yVal dataW = 0 := by
    unfold yVal
    rw [ha, hx, hb]
    show ((1 : ℝ) * 1 * Real.cos (radians 90) - 0 * 0) / 1 = 0
    rw [hcos]; norm_num
  have hzarg : zArg dataW = 1 := by
    unfold zArg
    rw [hx, hy]
    show (1 : ℝ) ^ 2 - 0 ^ 2 - 0 ^ 2 = 1
    norm_num
  have hC : tripC dataW = ((0 : ℝ), 1, 0) := by
    unfold tripC
    rw [ha, hb]
  have hO : tripO dataW = ((0 : ℝ), 0, 1) := by
    unfold tripO
    rw [hx, hy, hzarg, Real.sqrt_one]
  have h2 : (1 : ℝ) ≤ Real.sqrt 2 := by
    rw [show (1 : ℝ) = Real.sqrt 1 from Real.sqrt_one.symm]
    exact Real.sqrt_le_sqrt (by norm_num)
  have hscale : scaleOf 1 dataW = 1 := by
    unfold scaleOf
    rw [hC, hO]
    have hbc : dist3 (tripB 1) ((0 : ℝ), 1, 0) = Real.sqrt 2 := by
      simp only [dist3, norm3, vsub, tripB]
      norm_num
    have hbo : dist3 (tripB 1) ((0 : ℝ), 0, 1) = Real.sqrt 2 := by
      simp only [dist3, norm3, vsub, tripB]
      norm_num
    have hco : dist3 ((0 : ℝ), 1, 0) ((0 : ℝ), 0, 1) = Real.sqrt 2 := by
      simp only [dist3, norm3, vsub]
      norm_num
    rw [hbc, hbo, hco]
    show List.foldl min 1 [(1 : ℝ), Real.sqrt 2, 1, Real.sqrt 2, Real.sqrt 2] = 1
    simp only [List.foldl_cons, List.foldl_nil, min_self, min_eq_left h2]
  unfold setupOne
  rw [show getData dictW ["a", "b", "c"] = dataW from rfl]
  rw [if_neg (by rw [hb]; norm_num), if_neg (by rw [hzarg]; norm_num)]
  rw [hC, hO, hscale]
  rfl

theorem calculateCoords_dictW :
    calculateCoords ["a", "b", "c"] dictW shuffleW [] lstW = .ok fcW := by
  have hstep : calculateCoords ["a", "b", "c"] dictW shuffleW [] lstW =
      ((([["a", "b", "c"]] : List (List String)).mapM (setupOne dictW 1)) >>=
        fun trips => mergeTriplets lstW trips) := rfl
  rw [hstep, List.mapM_cons, setupOne_dictW, List.mapM_nil]
  rfl

/-- Witness for `c5_scale_min_pairwise` at the concrete three-object
reconstruction. -/
theorem c5_scale_min_pairwise_witness :
    (calculateCoords ["a", "b", "c"] dictW shuffleW [] lstW = .ok fcW ∧
      (∀ k data, dictW k = some data →
        0 ≤ data.dAB ∧ 0 ≤ data.dAC ∧ 0 ≤ data.dAO)) ∧
    (∃ good d_ab trips,
      findGood ["a", "b", "c"] (shuffleW (["a", "b", "c"]).permutations) dictW
        = some good ∧
      pyMax (good.map (fun c => (getData dictW c).dAB)) = .ok d_ab ∧
      good.mapM (setupOne dictW d_ab) = .ok trips ∧
      (∀ t ∈ trips,
        t.s ∈ [dist3 t.A t.B, dist3 t.A t.C, dist3 t.B t.C,
               dist3 t.A t.O, dist3 t.B t.O, dist3 t.C t.O] ∧
        ∀ dd ∈ [dist3 t.A t.B, dist3 t.A t.C, dist3 t.B t.C,
                dist3 t.A t.O, dist3 t.B t.O, dist3 t.C t.O], t.s ≤ dd) ∧
      (∃ sMin, lookupA fcW "SCALE" = some (Entry.sc sMin) ∧
        sMin ∈ trips.map LocalTrip.s ∧
        ∀ v ∈ trips.map LocalTrip.s, sMin ≤ v)) := by
  have hd : ∀ k data, dictW k = some data →
      0 ≤ data.dAB ∧ 0 ≤ data.dAC ∧ 0 ≤ data.dAO := by
    intro k data hkd
    unfold dictW at hkd
    by_cases hk : k = "a,b,c"
    · rw [if_pos hk] at hkd
      rw [← Option.some.inj hkd]
      refine ⟨by norm_num, by norm_num, by norm_num⟩
    · rw [if_neg hk] at hkd
      exact Option.noConfusion hkd
  exact ⟨⟨calculateCoords_dictW, hd⟩,
    c5_scale_min_pairwise ["a", "b", "c"] dictW shuffleW [] lstW fcW
      calculateCoords_dictW hd⟩

end Soilie3D
